import Mathlib

/-!
# Verification of the BetterYao garbled-circuit engine (`GarbledCct3.cpp`)

A shallow embedding of `src/pcflib/betteryao/GarbledCct3.cpp`.

Modelling conventions:

* A 128-bit SSE register (`__m128i`) is a `Nat`; XOR of registers is `Nat`
  XOR (`^^^`).
* A byte string (`Bytes`) of known length is a `ByteStr`: its little-endian
  numeric value together with its length in bytes (byte `i` of the string is
  `val / 256^i % 256`, and `get_ith_bit ix` is `val / 2^ix % 2`, matching the
  byte-little-endian, LSB-first layout the container uses).  Concatenation
  `a + b` becomes `a.val + b.val * 2^(8*a.len)`; taking the first `n` bytes
  becomes `% 2^(8*n)`.
* `Env::k()` is the parameter `k`; `Env::key_size_in_bytes()` is
  `K = (k+7)/8`.  `m_clear_mask` (the 128-bit word with exactly the low `k`
  bits set) is `2^k - 1`, and `_mm_and_si128` with it is `&&&`.
* The external KDFs (`KDF128`, `KDF256`), the byte-string hash
  (`Bytes::hash(Env::k())`, whose digest is `k` bits) and the seeded PRNG
  (`m_prng`, whose draws are streamed by an index: `rand(Env::k())` consumes
  one draw and yields `k` fresh bits) are abstract function parameters: the
  spec declares them out of scope and the engine only requires that both
  parties compute them identically.
* The preprocessor switches `FREE_XOR` and `GRR` are the booleans `freeXor`
  and `grr` of the public parameter record.
* `update_hash` under `RAND_SEED` periodically flushes its spill buffer into
  the incremental hash; since the hash itself is external, the model records
  the absorbed byte stream itself (`hashed`), which is exactly what the
  streaming hash consumes, in order.
-/

/-- A byte string of known length: `val` is its little-endian numeric value
(byte `i` is `val / 256^i % 256`) and `len` its length in bytes. -/
structure ByteStr where
  val : Nat
  len : Nat
  deriving DecidableEq

/-- The empty byte string. -/
def ByteStr.empty : ByteStr := ⟨0, 0⟩

/-- Concatenation of byte strings (`Bytes::operator+` / `insert` at the end):
the earlier string occupies the low-order bytes. -/
def ByteStr.append (a b : ByteStr) : ByteStr :=
  ⟨a.val + b.val * 2 ^ (8 * a.len), a.len + b.len⟩

/-- Appending the first `K` bytes of a stored 128-bit register
(`_mm_storeu_si128` into a 16-byte scratch, then `insert(begin, begin+K)`). -/
def ByteStr.ofKey (K x : Nat) : ByteStr := ⟨x % 2 ^ (8 * K), K⟩

/-- `push_back` of a single byte. -/
def ByteStr.pushByte (a : ByteStr) (b : Nat) : ByteStr := a.append ⟨b % 256, 1⟩

/-- Reading `n` bytes at byte offset `off` (iterator arithmetic plus
`Bytes(it, it+n)`). -/
def ByteStr.slice (s : ByteStr) (off n : Nat) : Nat :=
  s.val / 2 ^ (8 * off) % 2 ^ (8 * n)

/-- Well-formedness: the value fits in the length. -/
def ByteStr.WF (s : ByteStr) : Prop := s.val < 2 ^ (8 * s.len)

/-- `Bytes::get_ith_bit` under the byte-little-endian, LSB-first layout. -/
def bitOf (x i : Nat) : Nat := x / 2 ^ i % 2

/-- `Bytes::set_ith_bit(i, b)` on the little-endian value. -/
def setIthBit (x i b : Nat) : Nat :=
  if b % 2 = 1 then x ||| 2 ^ i else (x ||| 2 ^ i) - 2 ^ i

/-- `_mm_set1_epi64x(v)`: the 128-bit word whose two 64-bit halves both hold
the 64-bit value `v` (the per-gate tweak). -/
def bcast64 (v : Nat) : Nat := v % 2 ^ 64 + v % 2 ^ 64 * 2 ^ 64

/-- Gate tags (`Circuit::GEN_INP` etc.); `INTERNAL` stands for any tag that
is none of the four special ones. -/
inductive GateTag where
  | GEN_INP : GateTag
  | EVL_INP : GateTag
  | GEN_OUT : GateTag
  | EVL_OUT : GateTag
  | INTERNAL : GateTag
  deriving DecidableEq

/-- A circuit gate: tag, input wire ids (`m_input_idx`), truth table
(`m_table`, bit `i` of the `Nat` is entry `m_table[i]`), and output wire id
(`m_idx`). -/
structure Gate where
  tag : GateTag
  inputs : List Nat
  table : Nat
  idx : Nat
  deriving DecidableEq

/-- Entry `i` of a gate's truth table. -/
def Gate.tbl (g : Gate) (i : Nat) : Nat := bitOf g.table i

/-- Modelled from the spec: `is_xor` is declared in the header
`GarbledCct3.h`, which is not among the repository's files.  The spec states
that XOR gates are detected by table value `0x6` at 2-arity and `0x1` at
1-arity. -/
def is_xor (g : Gate) : Bool :=
  (g.inputs.length == 2 && g.table == 6) || (g.inputs.length == 1 && g.table == 1)

/-- Public parameters shared by generator and evaluator: the security
parameter `k`, the external KDFs and byte-string hash, and the two
compile-time switches. -/
structure PP where
  k : Nat
  kdf128 : Nat → Nat → Nat
  kdf256 : Nat → Nat → Nat → Nat
  hashk : Nat → Nat
  grr : Bool
  freeXor : Bool

/-- `Env::key_size_in_bytes()`. -/
def PP.K (pp : PP) : Nat := (pp.k + 7) / 8

/-- `m_clear_mask`: the 128-bit word with exactly the low `k` bits set. -/
def PP.clearMask (pp : PP) : Nat := 2 ^ pp.k - 1

/-- `_mm_and_si128(x, m_clear_mask)`. -/
def PP.mask (pp : PP) (x : Nat) : Nat := x &&& pp.clearMask

/-- `Bytes::hash(Env::k())`: the external hash truncated to a `k`-bit
digest. -/
def PP.Hk (pp : PP) (d : Nat) : Nat := pp.hashk d % 2 ^ pp.k

/-- Generator-side parameters: the PRNG draw stream (seeded by `srand`), the
borrowed OT key table, and `m_gen_inp_mask`. -/
structure GenPar where
  pp : PP
  prng : Nat → Nat
  otKeys : Nat → Nat
  genInpMask : Nat

/-- `m_prng.rand(Env::k())`: the draw at stream position `t`, `k` bits. -/
def GenPar.rand (gp : GenPar) (t : Nat) : Nat := gp.prng t % 2 ^ gp.pp.k

/-- Evaluator-side parameters: its own OT keys (one per evaluator-input bit),
the masked generator input and the evaluator input. -/
structure EvlPar where
  pp : PP
  otKeys : Nat → Nat
  maskedGenInp : Nat
  evlInp : Nat

/-- Generator state (`GarbledCct3` fields used on the generator side).
`prngIx` is the position of the next unconsumed PRNG draw; `hashed` is the
byte stream absorbed so far by `update_hash`. -/
structure GenSt where
  gateIx : Nat
  genInpIx : Nat
  evlInpIx : Nat
  genInpHashIx : Nat
  prngIx : Nat
  R : Nat
  w : Nat → Nat
  oBufr : ByteStr
  decom : Nat → Nat
  hashed : ByteStr

/-- Evaluator state (`GarbledCct3` fields used on the evaluator side).
`ix` is the byte offset of `m_i_bufr_ix` into `iBufr`. -/
structure EvlSt where
  gateIx : Nat
  genInpIx : Nat
  evlInpIx : Nat
  genOutIx : Nat
  evlOutIx : Nat
  genInpHashIx : Nat
  w : Nat → Nat
  iBufr : ByteStr
  ix : Nat
  com : Nat → Nat
  decom : Nat → Nat
  evlOut : Nat
  genOut : Nat
  genInpHash : Nat
  hashed : ByteStr

/-- `GarbledCct3::gen_init`: sample `R` (a `k`-bit draw whose 0-th bit is
forced to 1) and reset all indices. -/
def gen_init (gp : GenPar) : GenSt where
  gateIx := 0
  genInpIx := 0
  evlInpIx := 0
  genInpHashIx := 0
  prngIx := 1
  R := setIthBit (gp.rand 0) 0 1
  w := fun _ => 0
  oBufr := ByteStr.empty
  decom := fun _ => 0
  hashed := ByteStr.empty

/-- `GarbledCct3::evl_init`: reset indices and buffers; the decommitment
table `decomTbl` is the one the protocol populates out of band. -/
def evl_init (_ep : EvlPar) (decomTbl : Nat → Nat) : EvlSt where
  gateIx := 0
  genInpIx := 0
  evlInpIx := 0
  genOutIx := 0
  evlOutIx := 0
  genInpHashIx := 0
  w := fun _ => 0
  iBufr := ByteStr.empty
  ix := 0
  com := fun _ => 0
  decom := decomTbl
  evlOut := 0
  genOut := 0
  genInpHash := 0
  hashed := ByteStr.empty

/-- Result of garbling one non-input gate: the zero key of the output wire,
the output buffer after the appended rows, and the next PRNG position. -/
structure GRes where
  zk : Nat
  ob : ByteStr
  pi : Nat

/-- The 0-th garbled row (`GarbledCct3.cpp` lines 194–208 and 263–276): under
GRR the 0-th ciphertext becomes one of the output keys and nothing is
emitted; otherwise a fresh zero key is drawn and the encrypted 0-th row is
appended.  Returns the output key pair `(Z[0], Z[1])`, the buffer and the
next PRNG position. -/
def genRow0 (gp : GenPar) (st : GenSt) (c0 b0 : Nat) : Nat × Nat × ByteStr × Nat :=
  if gp.pp.grr then
    if b0 = 1 then (c0 ^^^ st.R, c0, st.oBufr, st.prngIx)
    else (c0, c0 ^^^ st.R, st.oBufr, st.prngIx)
  else
    let z0 := gp.rand st.prngIx
    let z1 := z0 ^^^ st.R
    (z0, z1,
      st.oBufr.append (ByteStr.ofKey gp.pp.K (c0 ^^^ (if b0 = 1 then z1 else z0))),
      st.prngIx + 1)

/-- Garbling a 2-arity non-XOR gate (`gen_next_gate`, lines 167–240): four
KDF256 rows keyed by the successive `aes_key` XORs with `R`, the 0-th handled
by `genRow0`, the remaining three appended in order. -/
def genRows2 (gp : GenPar) (st : GenSt) (g : Gate) : GRes :=
  let K := gp.pp.K
  let tweak := bcast64 st.gateIx
  let X0 := st.w (g.inputs.getD 0 0)
  let Y0 := st.w (g.inputs.getD 1 0)
  let X1 := X0 ^^^ st.R
  let Y1 := Y0 ^^^ st.R
  let px := X0 % 2
  let py := Y0 % 2
  let dg := 2 * py + px
  let kA0 := if px = 1 then X1 else X0
  let kB0 := if py = 1 then Y1 else Y0
  let c0 := gp.pp.mask (gp.pp.kdf256 tweak kA0 kB0)
  let r0 := genRow0 gp st c0 (g.tbl dg)
  let Z0 := r0.1
  let Z1 := r0.2.1
  let kA1 := kA0 ^^^ st.R
  let c1 := gp.pp.mask (gp.pp.kdf256 tweak kA1 kB0)
  let b1 := g.tbl (1 ^^^ dg)
  let ob1 := r0.2.2.1.append (ByteStr.ofKey K (c1 ^^^ (if b1 = 1 then Z1 else Z0)))
  let kA2 := kA1 ^^^ st.R
  let kB2 := kB0 ^^^ st.R
  let c2 := gp.pp.mask (gp.pp.kdf256 tweak kA2 kB2)
  let b2 := g.tbl (2 ^^^ dg)
  let ob2 := ob1.append (ByteStr.ofKey K (c2 ^^^ (if b2 = 1 then Z1 else Z0)))
  let kA3 := kA2 ^^^ st.R
  let c3 := gp.pp.mask (gp.pp.kdf256 tweak kA3 kB2)
  let b3 := g.tbl (3 ^^^ dg)
  let ob3 := ob2.append (ByteStr.ofKey K (c3 ^^^ (if b3 = 1 then Z1 else Z0)))
  ⟨Z0, ob3, r0.2.2.2⟩

/-- Garbling a 1-arity non-XOR gate (`gen_next_gate`, lines 241–287): two
KDF128 rows. -/
def genRows1 (gp : GenPar) (st : GenSt) (g : Gate) : GRes :=
  let K := gp.pp.K
  let tweak := bcast64 st.gateIx
  let X0 := st.w (g.inputs.getD 0 0)
  let X1 := X0 ^^^ st.R
  let px := X0 % 2
  let kA0 := if px = 1 then X1 else X0
  let c0 := gp.pp.mask (gp.pp.kdf128 tweak kA0)
  let r0 := genRow0 gp st c0 (g.tbl px)
  let Z0 := r0.1
  let Z1 := r0.2.1
  let kA1 := kA0 ^^^ st.R
  let c1 := gp.pp.mask (gp.pp.kdf128 tweak kA1)
  let b1 := g.tbl (1 ^^^ px)
  let ob1 := r0.2.2.1.append (ByteStr.ofKey K (c1 ^^^ (if b1 = 1 then Z1 else Z0)))
  ⟨Z0, ob1, r0.2.2.2⟩

/-- `GarbledCct3::gen_next_gate`. -/
def gen_next_gate (gp : GenPar) (st : GenSt) (g : Gate) : GenSt :=
  let K := gp.pp.K
  if g.tag = GateTag.GEN_INP then
    let zk := gp.rand st.prngIx
    let a0 := zk
    let a1 := zk ^^^ st.R
    let bit := bitOf gp.genInpMask st.genInpIx
    let d0 := (if bit = 1 then a1 else a0) % 2 ^ (8 * K) + gp.rand (st.prngIx + 1) * 2 ^ (8 * K)
    let d1 := (if bit = 1 then a0 else a1) % 2 ^ (8 * K) + gp.rand (st.prngIx + 2) * 2 ^ (8 * K)
    { st with
      genInpIx := st.genInpIx + 1
      prngIx := st.prngIx + 3
      decom := fun j =>
        if j = 2 * st.genInpIx then d0
        else if j = 2 * st.genInpIx + 1 then d1
        else st.decom j
      oBufr := (st.oBufr.append (ByteStr.ofKey K (gp.pp.Hk d0))).append
        (ByteStr.ofKey K (gp.pp.Hk d1))
      w := fun j => if j = g.idx then zk else st.w j
      gateIx := st.gateIx + 1 }
  else if g.tag = GateTag.EVL_INP then
    let zk := gp.rand st.prngIx
    let a0 := gp.otKeys (2 * st.evlInpIx) ^^^ zk
    let a1 := gp.otKeys (2 * st.evlInpIx + 1) ^^^ (zk ^^^ st.R)
    { st with
      evlInpIx := st.evlInpIx + 1
      prngIx := st.prngIx + 1
      oBufr := (st.oBufr.append (ByteStr.ofKey K a0)).append (ByteStr.ofKey K a1)
      w := fun j => if j = g.idx then zk else st.w j
      gateIx := st.gateIx + 1 }
  else
    let res : GRes :=
      if gp.pp.freeXor && is_xor g then
        ⟨if g.inputs.length = 2 then
            st.w (g.inputs.getD 0 0) ^^^ st.w (g.inputs.getD 1 0)
          else st.w (g.inputs.getD 0 0),
          st.oBufr, st.prngIx⟩
      else if g.inputs.length = 2 then genRows2 gp st g
      else genRows1 gp st g
    let ob :=
      if g.tag = GateTag.EVL_OUT || g.tag = GateTag.GEN_OUT then
        res.ob.pushByte (res.zk % 2)
      else res.ob
    { st with
      oBufr := ob
      prngIx := res.pi
      w := fun j => if j = g.idx then res.zk else st.w j
      gateIx := st.gateIx + 1 }

/-- `GarbledCct3::update_hash`: the absorbed stream grows by `data` (the
RAND_SEED spill buffer feeds the incremental hash exactly this stream, in
this order). -/
def update_hash (bufr data : ByteStr) : ByteStr := bufr.append data

/-- `GarbledCct3::com_next_gate`: garble the gate, fold the emitted bytes
into the running hash, flush the output buffer. -/
def com_next_gate (gp : GenPar) (st : GenSt) (g : Gate) : GenSt :=
  let st1 := gen_next_gate gp st g
  { st1 with hashed := update_hash st1.hashed st1.oBufr, oBufr := ByteStr.empty }

/-- Evaluating a 2-arity non-XOR gate (`evl_next_gate`, lines 385–424):
returns the active output key and the new cursor. -/
def evlRows2 (ep : EvlPar) (st : EvlSt) (g : Gate) : Nat × Nat :=
  let K := ep.pp.K
  let tweak := bcast64 st.gateIx
  let A := st.w (g.inputs.getD 0 0)
  let B := st.w (g.inputs.getD 1 0)
  let px := A % 2
  let py := B % 2
  let c := ep.pp.mask (ep.pp.kdf256 tweak A B)
  let gix := 2 * py + px
  if ep.pp.grr then
    (if gix = 0 then c else c ^^^ st.iBufr.slice (st.ix + (gix - 1) * K) K,
      st.ix + 3 * K)
  else
    (st.iBufr.slice (st.ix + gix * K) K ^^^ c, st.ix + 4 * K)

/-- Evaluating a 1-arity non-XOR gate (`evl_next_gate`, lines 425–458).  In
the no-GRR branch the source references an undeclared `garbled_ix`
(line 450); modelled from the spec: the intended value is `perm_x`. -/
def evlRows1 (ep : EvlPar) (st : EvlSt) (g : Gate) : Nat × Nat :=
  let K := ep.pp.K
  let tweak := bcast64 st.gateIx
  let A := st.w (g.inputs.getD 0 0)
  let c := ep.pp.mask (ep.pp.kdf128 tweak A)
  let px := A % 2
  if ep.pp.grr then
    (if px = 0 then c else c ^^^ st.iBufr.slice st.ix K, st.ix + K)
  else
    (st.iBufr.slice (st.ix + px * K) K ^^^ c, st.ix + 2 * K)

/-- `GarbledCct3::evl_next_gate`. -/
def evl_next_gate (ep : EvlPar) (st : EvlSt) (g : Gate) : EvlSt :=
  let K := ep.pp.K
  let st1 :=
    if g.tag = GateTag.GEN_INP then
      let bit := bitOf ep.maskedGenInp st.genInpIx
      let ck := st.decom st.genInpIx % 2 ^ (8 * K)
      { st with
        com := fun j =>
          if j = st.genInpIx then st.iBufr.slice (st.ix + bit * K) K else st.com j
        w := fun j => if j = g.idx then ck else st.w j
        ix := st.ix + 2 * K
        genInpIx := st.genInpIx + 1 }
    else if g.tag = GateTag.EVL_INP then
      let bit := bitOf ep.evlInp st.evlInpIx
      let ck := ep.otKeys st.evlInpIx ^^^ st.iBufr.slice (st.ix + bit * K) K
      { st with
        w := fun j => if j = g.idx then ck else st.w j
        ix := st.ix + 2 * K
        evlInpIx := st.evlInpIx + 1 }
    else
      let rk : Nat × Nat :=
        if ep.pp.freeXor && is_xor g then
          (if g.inputs.length = 2 then
              st.w (g.inputs.getD 0 0) ^^^ st.w (g.inputs.getD 1 0)
            else st.w (g.inputs.getD 0 0),
            st.ix)
        else if g.inputs.length = 2 then evlRows2 ep st g
        else evlRows1 ep st g
      let ck := rk.1
      let st2 := { st with w := fun j => if j = g.idx then ck else st.w j, ix := rk.2 }
      if g.tag = GateTag.EVL_OUT then
        { st2 with
          evlOut := setIthBit st.evlOut st.evlOutIx (ck % 2 ^^^ st.iBufr.slice rk.2 1)
          ix := rk.2 + 1
          evlOutIx := st.evlOutIx + 1 }
      else if g.tag = GateTag.GEN_OUT then
        { st2 with
          genOut := setIthBit st.genOut st.genOutIx (ck % 2 ^^^ st.iBufr.slice rk.2 1)
          ix := rk.2 + 1
          genOutIx := st.genOutIx + 1 }
      else st2
  { st1 with hashed := update_hash st1.hashed st1.iBufr, gateIx := st1.gateIx + 1 }

/-- `GarbledCct3::pass_check`: fold, over every generator-input index, the
comparison of the decommitment's `k`-bit hash against the stored
commitment. -/
def pass_check (pp : PP) (genInpCnt : Nat) (st : EvlSt) : Bool :=
  (List.range genInpCnt).foldl
    (fun pass ix => pass && (pp.Hk (st.decom ix) == st.com ix)) true

/-- `GarbledCct3::gen_next_gen_inp_com`. -/
def gen_next_gen_inp_com (gp : GenPar) (genInpCnt : Nat) (st : GenSt)
    (row : Nat) (kx : Nat) : GenSt :=
  let K := gp.pp.K
  let out0 := setIthBit (gp.rand st.prngIx) 0 0
  let out1 := out0 ^^^ st.R
  let msg := (List.range genInpCnt).foldl
    (fun m jx =>
      if bitOf row jx = 1 then m ^^^ st.decom (2 * jx + bitOf gp.genInpMask jx) else m) 0
  let tweak := bcast64 kx
  let in0 := msg % 2 ^ (8 * K)
  let in1 := in0 ^^^ st.R
  let ok0 := out0 ^^^ gp.pp.mask (gp.pp.kdf128 tweak in0)
  let ok1 := out1 ^^^ gp.pp.mask (gp.pp.kdf128 tweak in1)
  let bit := bitOf msg 0
  { st with
    prngIx := st.prngIx + 1
    oBufr := (st.oBufr.append (ByteStr.ofKey K (if bit = 1 then ok1 else ok0))).append
      (ByteStr.ofKey K (if bit = 1 then ok0 else ok1))
    genInpHashIx := st.genInpHashIx + 1 }

/-- `GarbledCct3::evl_next_gen_inp_com`. -/
def evl_next_gen_inp_com (ep : EvlPar) (genInpCnt : Nat) (st : EvlSt)
    (row : Nat) (kx : Nat) : EvlSt :=
  let K := ep.pp.K
  let out := (List.range genInpCnt).foldl
    (fun m jx => if bitOf row jx = 1 then m ^^^ st.decom jx else m) 0
  let bit := bitOf out 0
  let c := ep.pp.mask (ep.pp.kdf128 (bcast64 kx) (out % 2 ^ (8 * K)))
  let outKey := st.iBufr.slice (st.ix + bit * K) K ^^^ c
  { st with
    genInpHash := setIthBit st.genInpHash kx (outKey % 2)
    ix := st.ix + 2 * K
    genInpHashIx := st.genInpHashIx + 1 }

/-- Modelled from the spec: the transport layer (outside `src/`) drains the
generator's per-gate `out_buffer` into the network and fills the evaluator's
`in_buffer` with exactly that gate's bytes before `evl_next_gate` runs, the
cursor starting at the beginning. -/
def feedGate (ep : EvlPar) (st : EvlSt) (g : Gate) (c : ByteStr) : EvlSt :=
  evl_next_gate ep { st with iBufr := c, ix := 0 } g

/-- One gate of the honest two-party execution: the generator garbles (and
hashes) the gate, the evaluator consumes the bytes the generator just
emitted. -/
def honestStep (gp : GenPar) (ep : EvlPar) (s : GenSt × EvlSt) (g : Gate) :
    GenSt × EvlSt :=
  (com_next_gate gp s.1 g, feedGate ep s.2 g (gen_next_gate gp s.1 g).oBufr)

/-- The honest two-party execution over a gate list. -/
def honestRun (gp : GenPar) (ep : EvlPar) (s : GenSt × EvlSt) :
    List Gate → GenSt × EvlSt
  | [] => s
  | g :: gs => honestRun gp ep (honestStep gp ep s g) gs

/-- The generator-side run alone (`com_next_gate` on every gate). -/
def comRun (gp : GenPar) (st : GenSt) : List Gate → GenSt
  | [] => st
  | g :: gs => comRun gp (com_next_gate gp st g) gs

/-- Reference circuit semantics, following the spec's words: plaintext wire
values, input-bit cursors and the two output bit strings. -/
structure SpecSt where
  val : Nat → Nat
  genInpIx : Nat
  evlInpIx : Nat
  genOutIx : Nat
  evlOutIx : Nat
  evlOutBits : Nat
  genOutBits : Nat

/-- Initial reference state. -/
def specInit : SpecSt where
  val := fun _ => 0
  genInpIx := 0
  evlInpIx := 0
  genOutIx := 0
  evlOutIx := 0
  evlOutBits := 0
  genOutBits := 0

/-- Reference semantics of one gate, following the spec's words: a `GEN_INP`
wire carries the next bit of the (masked) generator input, an `EVL_INP` wire
the next bit of the evaluator input, and an internal gate's output is the
truth-table entry selected by its input values; output-tagged gates append
the value to the corresponding output bit string. -/
def specNextGate (genInp evlInp : Nat) (s : SpecSt) (g : Gate) : SpecSt :=
  if g.tag = GateTag.GEN_INP then
    let v := bitOf genInp s.genInpIx
    { s with
      val := fun j => if j = g.idx then v else s.val j
      genInpIx := s.genInpIx + 1 }
  else if g.tag = GateTag.EVL_INP then
    let v := bitOf evlInp s.evlInpIx
    { s with
      val := fun j => if j = g.idx then v else s.val j
      evlInpIx := s.evlInpIx + 1 }
  else
    let v :=
      if g.inputs.length = 2 then
        g.tbl (2 * s.val (g.inputs.getD 1 0) + s.val (g.inputs.getD 0 0))
      else g.tbl (s.val (g.inputs.getD 0 0))
    let s1 := { s with val := fun j => if j = g.idx then v else s.val j }
    if g.tag = GateTag.EVL_OUT then
      { s1 with
        evlOutBits := setIthBit s.evlOutBits s.evlOutIx v
        evlOutIx := s.evlOutIx + 1 }
    else if g.tag = GateTag.GEN_OUT then
      { s1 with
        genOutBits := setIthBit s.genOutBits s.genOutIx v
        genOutIx := s.genOutIx + 1 }
    else s1

/-- Reference run over a gate list. -/
def specRun (genInp evlInp : Nat) (s : SpecSt) : List Gate → SpecSt
  | [] => s
  | g :: gs => specRun genInp evlInp (specNextGate genInp evlInp s g) gs

/-- Well-formedness of the gate at position `n` of a topologically ordered
circuit: its output wire id is its position; a non-input gate has arity 1 or
2 and reads only earlier wires; a 1-arity gate is not XOR-shaped (the spec
leaves the 1-arity FREE_XOR branch as an open question, possibly dead
code). -/
def gateOK (n : Nat) (g : Gate) : Bool :=
  g.idx == n &&
    (match g.tag with
      | GateTag.GEN_INP => true
      | GateTag.EVL_INP => true
      | _ =>
        (g.inputs.length == 2 || (g.inputs.length == 1 && g.table != 1)) &&
          g.inputs.all fun x => x < n)

/-- Well-formedness of a circuit suffix starting at position `n`. -/
def wfFrom (n : Nat) : List Gate → Bool
  | [] => true
  | g :: gs => gateOK n g && wfFrom (n + 1) gs

/-- The per-gate byte count the row-count claim states under GRR and
FREE_XOR, as a function of `K = Env::key_size_in_bytes()`: `3K` for a
non-XOR 2-input internal gate, `K` for a non-XOR 1-input internal gate, `0`
for XOR gates, `2K` for `GEN_INP` and `EVL_INP`, plus one tagging byte for
output gates. -/
def bytesFor (K : Nat) (g : Gate) : Nat :=
  match g.tag with
  | GateTag.GEN_INP => 2 * K
  | GateTag.EVL_INP => 2 * K
  | GateTag.GEN_OUT =>
    (if is_xor g then 0 else if g.inputs.length = 2 then 3 * K else K) + 1
  | GateTag.EVL_OUT =>
    (if is_xor g then 0 else if g.inputs.length = 2 then 3 * K else K) + 1
  | GateTag.INTERNAL =>
    if is_xor g then 0 else if g.inputs.length = 2 then 3 * K else K

/-- The "one" label of a gate's output wire as the generator's kernel
constructs it: `a[1]` for input gates, `Z[1]` (the second component of
`genRow0`'s pair) for garbled internal gates, and — for free-XOR gates,
which build no explicit pair — the XOR of the first input's one-label with
the second input's zero-label (the free-XOR semantics of the one-label). -/
def genLabelOne (gp : GenPar) (st : GenSt) (g : Gate) : Nat :=
  if g.tag = GateTag.GEN_INP then gp.rand st.prngIx ^^^ st.R
  else if g.tag = GateTag.EVL_INP then gp.rand st.prngIx ^^^ st.R
  else if gp.pp.freeXor && is_xor g then
    (if g.inputs.length = 2 then
      (st.w (g.inputs.getD 0 0) ^^^ st.R) ^^^ st.w (g.inputs.getD 1 0)
    else st.w (g.inputs.getD 0 0) ^^^ st.R)
  else if g.inputs.length = 2 then
    let tweak := bcast64 st.gateIx
    let X0 := st.w (g.inputs.getD 0 0)
    let Y0 := st.w (g.inputs.getD 1 0)
    let px := X0 % 2
    let py := Y0 % 2
    let dg := 2 * py + px
    let kA0 := if px = 1 then X0 ^^^ st.R else X0
    let kB0 := if py = 1 then Y0 ^^^ st.R else Y0
    let c0 := gp.pp.mask (gp.pp.kdf256 tweak kA0 kB0)
    (genRow0 gp st c0 (g.tbl dg)).2.1
  else
    let tweak := bcast64 st.gateIx
    let X0 := st.w (g.inputs.getD 0 0)
    let px := X0 % 2
    let kA0 := if px = 1 then X0 ^^^ st.R else X0
    let c0 := gp.pp.mask (gp.pp.kdf128 tweak kA0)
    (genRow0 gp st c0 (g.tbl px)).2.1

/-- The ciphertext of garbled row `r` of a 2-input non-XOR gate, as the
ordering claim describes it: keys `(X[px ⊕ (r&1)], Y[py ⊕ (r>>1)])`, output
bit `table[r ⊕ p]` with `p = (py<<1)|px`, encrypted against the output
label pair that row 0 fixes under GRR. -/
def rowCT (pp : PP) (R tweak table X0 Y0 : Nat) (r : Nat) : Nat :=
  let px := X0 % 2
  let py := Y0 % 2
  let p := 2 * py + px
  let kA := if px ^^^ r % 2 = 1 then X0 ^^^ R else X0
  let kB := if py ^^^ r / 2 % 2 = 1 then Y0 ^^^ R else Y0
  let c := pp.mask (pp.kdf256 tweak kA kB)
  let z0ct := pp.mask (pp.kdf256 tweak
    (if px = 1 then X0 ^^^ R else X0) (if py = 1 then Y0 ^^^ R else Y0))
  let zb := if bitOf table (r ^^^ p) = bitOf table p then z0ct else z0ct ^^^ R
  c ^^^ zb

/-- The honest-execution invariant tying the generator state, the evaluator
state and the reference semantics after the same prefix of gates: indices
agree, the generator's per-gate buffer is flushed, the output bit strings
agree, and for every processed wire the evaluator holds the active label
`W[i] ⊕ val(i)·R` with all labels `k`-bit. -/
def HonestInv (k R : Nat) (G : GenSt) (E : EvlSt) (S : SpecSt) : Prop :=
  G.R = R ∧
  E.gateIx = G.gateIx ∧
  E.genInpIx = G.genInpIx ∧
  S.genInpIx = G.genInpIx ∧
  E.evlInpIx = G.evlInpIx ∧
  S.evlInpIx = G.evlInpIx ∧
  E.evlOutIx = S.evlOutIx ∧
  E.genOutIx = S.genOutIx ∧
  G.oBufr = ByteStr.empty ∧
  E.evlOut = S.evlOutBits ∧
  E.genOut = S.genOutBits ∧
  ∀ i, i < G.gateIx → G.w i < 2 ^ k ∧ S.val i < 2 ∧ E.w i = G.w i ^^^ S.val i * R

/-! ### Concrete fixtures for counterexamples and witnesses -/

/-- Concrete public parameters for evaluation: `k = 8`, simple total
functions in place of the abstract KDFs and hash, GRR and FREE_XOR on. -/
def ppX : PP where
  k := 8
  kdf128 := fun t a => t + 2 * a
  kdf256 := fun t a b => t + 2 * a + 3 * b
  hashk := fun d => d + 5
  grr := true
  freeXor := true

/-- Concrete generator parameters for the C1 counterexample. -/
def gpC : GenPar where
  pp := ppX
  prng := fun _ => 0
  otKeys := fun _ => 0
  genInpMask := 0

/-- Concrete evaluator parameters for the C1 counterexample. -/
def epC : EvlPar where
  pp := ppX
  otKeys := fun _ => 0
  maskedGenInp := 0
  evlInp := 0

/-- The counterexample circuit: one generator input feeding a 1-arity gate
with table `0x1` (NOT) tagged `EVL_OUT`; the spec's `is_xor` detection makes
it free, and the free branch copies the input label. -/
def gatesC : List Gate :=
  [⟨GateTag.GEN_INP, [], 0, 0⟩, ⟨GateTag.EVL_OUT, [0], 1, 1⟩]

/-- The honestly initialized evaluator for the counterexample: its
decommitment table holds the generator's revealed (first-of-pair)
decommitments. -/
def evlC : EvlSt :=
  evl_init epC (fun m => (comRun gpC (gen_init gpC) gatesC).decom (2 * m))

/-- Concrete OT key table for the witness runs. -/
def otW : Nat → Nat := fun j => (j + 1) % 256

/-- Concrete generator parameters for witness runs. -/
def gpW : GenPar where
  pp := ppX
  prng := fun t => (t * 37 + 11) % 256
  otKeys := otW
  genInpMask := 1

/-- Concrete evaluator parameters for witness runs, wired honestly to
`gpW` (its OT key `i` is the generator's key for its own input bit). -/
def epW : EvlPar where
  pp := ppX
  otKeys := fun i => otW (2 * i + bitOf 1 i)
  maskedGenInp := 1
  evlInp := 1

/-- The witness circuit: a generator input and an evaluator input feeding an
AND gate tagged `EVL_OUT`. -/
def gatesW : List Gate :=
  [⟨GateTag.GEN_INP, [], 0, 0⟩, ⟨GateTag.EVL_INP, [], 0, 1⟩,
    ⟨GateTag.EVL_OUT, [0, 1], 8, 2⟩]

/-- The honestly initialized evaluator for the witness run. -/
def evlW : EvlSt :=
  evl_init epW (fun m => (comRun gpW (gen_init gpW) gatesW).decom (2 * m))

/-! ## Arithmetic and bit-level
 lemmas -/

theorem PP.mask_eq_mod (pp : PP) (x : Nat) : pp.mask x = x % 2 ^ pp.k := by
  simp [PP.mask, PP.clearMask, Nat.and_pow_two_sub_one_eq_mod]

theorem PP.mask_lt (pp : PP) (x : Nat) : pp.mask x < 2 ^ pp.k := by
  rw [pp.mask_eq_mod]
  exact Nat.mod_lt _ (Nat.pos_pow_of_pos _ (by decide))

theorem PP.k_le_8K (pp : PP) : pp.k ≤ 8 * pp.K := by
  have h := Nat.div_add_mod (pp.k + 7) 8
  have h2 : (pp.k + 7) % 8 < 8 := Nat.mod_lt _ (by decide)
  simp only [PP.K]
  omega

theorem xor_mod_two_pow (x y n : Nat) :
    (x ^^^ y) % 2 ^ n = x % 2 ^ n ^^^ y % 2 ^ n := by
  apply Nat.eq_of_testBit_eq
  intro i
  by_cases h : i < n <;>
    simp [Nat.testBit_mod_two_pow, Nat.testBit_xor, h]

theorem xor_div_two_pow (x y n : Nat) :
    (x ^^^ y) / 2 ^ n = x / 2 ^ n ^^^ y / 2 ^ n := by
  apply Nat.eq_of_testBit_eq
  intro i
  simp [← Nat.shiftRight_eq_div_pow, Nat.testBit_xor]

theorem bitOf_xor (x y i : Nat) : bitOf (x ^^^ y) i = bitOf x i ^^^ bitOf y i := by
  simp only [bitOf, xor_div_two_pow]
  have := xor_mod_two_pow (x / 2 ^ i) (y / 2 ^ i) 1
  simp only [pow_one] at this
  exact this

theorem bitOf_lt_two (x i : Nat) : bitOf x i < 2 := Nat.mod_lt _ (by decide)

theorem mod_two_xor (x y : Nat) : (x ^^^ y) % 2 = x % 2 ^^^ y % 2 := by
  have := xor_mod_two_pow x y 1
  simpa using this

theorem lt_two_pow_of_lt_of_le {x k m : Nat} (h : x < 2 ^ k) (hm : k ≤ m) :
    x < 2 ^ m := lt_of_lt_of_le h (Nat.pow_le_pow_right (by decide) hm)

theorem xor_left_cancel (x y : Nat) : x ^^^ (x ^^^ y) = y := by
  rw [← Nat.xor_assoc, Nat.xor_self, Nat.zero_xor]

theorem xor_xor_cancel (x y : Nat) : x ^^^ y ^^^ y = x := by
  rw [Nat.xor_assoc, Nat.xor_self, Nat.xor_zero]

theorem or_one_mod_two (x : Nat) : (x ||| 1) % 2 = 1 := by
  have h : (x ||| 1).testBit 0 = true := by
    simp [Nat.testBit_or]
  simp only [Nat.testBit_zero, decide_eq_true_eq] at h
  exact h

theorem setIthBit_zero_one_mod_two (x : Nat) : setIthBit x 0 1 % 2 = 1 := by
  simp only [setIthBit, pow_zero]
  norm_num [or_one_mod_two]

theorem setIthBit_zero_one_lt {x k : Nat} (hx : x < 2 ^ k) (hk : 0 < k) :
    setIthBit x 0 1 < 2 ^ k := by
  simp only [setIthBit, pow_zero]
  norm_num
  exact Nat.or_lt_two_pow hx
    (lt_two_pow_of_lt_of_le (by decide) hk)

theorem GenPar.rand_lt (gp : GenPar) (t : Nat) : gp.rand t < 2 ^ gp.pp.k :=
  Nat.mod_lt _ (Nat.pos_pow_of_pos _ (by decide))

/-! ## ByteStr lemmas -/

theorem ByteStr.WF_empty : ByteStr.empty.WF := by
  show (0:Nat) < 2 ^ (8 * 0)
  norm_num

theorem ByteStr.WF_ofKey (K x : Nat) : (ByteStr.ofKey K x).WF :=
  Nat.mod_lt _ (Nat.pos_pow_of_pos _ (by decide))

theorem ByteStr.WF_append {a b : ByteStr} (ha : a.WF) (hb : b.WF) :
    (a.append b).WF := by
  simp only [ByteStr.WF, ByteStr.append] at *
  have h5 : 2 ^ (8 * (a.len + b.len)) = 2 ^ (8 * a.len) * 2 ^ (8 * b.len) := by
    rw [← pow_add]; ring_nf
  rw [h5]
  calc a.val + b.val * 2 ^ (8 * a.len)
      < 2 ^ (8 * a.len) + b.val * 2 ^ (8 * a.len) := by omega
    _ = (b.val + 1) * 2 ^ (8 * a.len) := by ring
    _ ≤ 2 ^ (8 * b.len) * 2 ^ (8 * a.len) := Nat.mul_le_mul_right _ (by omega)
    _ = 2 ^ (8 * a.len) * 2 ^ (8 * b.len) := Nat.mul_comm _ _

theorem ByteStr.WF_pushByte {a : ByteStr} (ha : a.WF) (b : Nat) :
    (a.pushByte b).WF :=
  ByteStr.WF_append ha (by
    show b % 256 < 2 ^ (8 * 1)
    exact Nat.mod_lt _ (by decide))

theorem ByteStr.len_append (a b : ByteStr) : (a.append b).len = a.len + b.len := rfl

theorem ByteStr.len_ofKey (K x : Nat) : (ByteStr.ofKey K x).len = K := rfl

theorem ByteStr.len_pushByte (a : ByteStr) (b : Nat) :
    (a.pushByte b).len = a.len + 1 := rfl

theorem ByteStr.empty_append (b : ByteStr) : ByteStr.empty.append b = b := by
  simp [ByteStr.append, ByteStr.empty]

theorem ByteStr.slice_zero (s : ByteStr) (n : Nat) :
    s.slice 0 n = s.val % 2 ^ (8 * n) := by
  simp [ByteStr.slice]

theorem ByteStr.slice_full (s : ByteStr) (h : s.WF) : s.slice 0 s.len = s.val := by
  rw [ByteStr.slice_zero]
  exact Nat.mod_eq_of_lt h

theorem ByteStr.slice_append_left (a b : ByteStr) (off n : Nat)
    (h : off + n ≤ a.len) : (a.append b).slice off n = a.slice off n := by
  simp only [ByteStr.slice, ByteStr.append]
  have h1 : 2 ^ (8 * a.len) = 2 ^ (8 * (a.len - off)) * 2 ^ (8 * off) := by
    rw [← pow_add]; congr 1; omega
  rw [h1, ← Nat.mul_assoc,
    Nat.add_mul_div_right _ _ (Nat.pos_pow_of_pos _ (by decide))]
  have h2 : 2 ^ (8 * (a.len - off)) = 2 ^ (8 * (a.len - off - n)) * 2 ^ (8 * n) := by
    rw [← pow_add]; congr 1; omega
  rw [h2, ← Nat.mul_assoc, Nat.add_mul_mod_self_right]

theorem ByteStr.slice_append_right (a b : ByteStr) (off n : Nat) (ha : a.WF) :
    (a.append b).slice (a.len + off) n = b.slice off n := by
  simp only [ByteStr.slice, ByteStr.append]
  rw [Nat.mul_add, pow_add, ← Nat.div_div_eq_div_mul,
    Nat.add_mul_div_right _ _ (Nat.pos_pow_of_pos _ (by decide)),
    Nat.div_eq_of_lt ha]
  simp

theorem ByteStr.slice_append_end (a b : ByteStr) (ha : a.WF) (hb : b.WF) :
    (a.append b).slice a.len b.len = b.val := by
  have := ByteStr.slice_append_right a b 0 b.len ha
  rw [Nat.add_zero] at this
  rw [this, ByteStr.slice_full _ hb]

/-! ## Generic facts about the step functions -/

theorem gen_next_gate_gateIx (gp : GenPar) (st : GenSt) (g : Gate) :
    (gen_next_gate gp st g).gateIx = st.gateIx + 1 := by
  unfold gen_next_gate
  by_cases h1 : g.tag = GateTag.GEN_INP
  · simp [h1]
  · by_cases h2 : g.tag = GateTag.EVL_INP
    · simp [h1, h2]
    · simp [h1, h2]

theorem evl_next_gate_gateIx (ep : EvlPar) (st : EvlSt) (g : Gate) :
    (evl_next_gate ep st g).gateIx = st.gateIx + 1 := by
  unfold evl_next_gate
  by_cases h1 : g.tag = GateTag.GEN_INP
  · simp [h1]
  · by_cases h2 : g.tag = GateTag.EVL_INP
    · simp [h1, h2]
    · simp only [h1, h2, if_false]
      split <;> (try split) <;> rfl

theorem gen_next_gate_w_frame (gp : GenPar) (st : GenSt) (g : Gate) (j : Nat)
    (hj : j ≠ g.idx) : (gen_next_gate gp st g).w j = st.w j := by
  unfold gen_next_gate
  by_cases h1 : g.tag = GateTag.GEN_INP
  · simp [h1, hj]
  · by_cases h2 : g.tag = GateTag.EVL_INP
    · simp [h1, h2, hj]
    · simp [h1, h2, hj]

theorem evl_next_gate_w_frame (ep : EvlPar) (st : EvlSt) (g : Gate) (j : Nat)
    (hj : j ≠ g.idx) : (evl_next_gate ep st g).w j = st.w j := by
  unfold evl_next_gate
  by_cases h1 : g.tag = GateTag.GEN_INP
  · simp [h1, hj]
  · by_cases h2 : g.tag = GateTag.EVL_INP
    · simp [h1, h2, hj]
    · simp only [h1, h2, if_false]
      split <;> (try split) <;> simp [hj]

theorem gen_next_gate_decom_frame (gp : GenPar) (st : GenSt) (g : Gate) (j : Nat)
    (hj : j < 2 * st.genInpIx) : (gen_next_gate gp st g).decom j = st.decom j := by
  unfold gen_next_gate
  by_cases h1 : g.tag = GateTag.GEN_INP
  · have hne : j ≠ 2 * st.genInpIx := by omega
    have hne2 : j ≠ 2 * st.genInpIx + 1 := by omega
    simp [h1, hne, hne2]
  · by_cases h2 : g.tag = GateTag.EVL_INP
    · simp [h1, h2]
    · simp [h1, h2]

theorem gen_next_gate_genInpIx_le (gp : GenPar) (st : GenSt) (g : Gate) :
    st.genInpIx ≤ (gen_next_gate gp st g).genInpIx := by
  unfold gen_next_gate
  by_cases h1 : g.tag = GateTag.GEN_INP
  · simp [h1]
  · by_cases h2 : g.tag = GateTag.EVL_INP
    · simp [h1, h2]
    · simp [h1, h2]

theorem com_next_gate_decom (gp : GenPar) (st : GenSt) (g : Gate) :
    (com_next_gate gp st g).decom = (gen_next_gate gp st g).decom := rfl

theorem com_next_gate_genInpIx (gp : GenPar) (st : GenSt) (g : Gate) :
    (com_next_gate gp st g).genInpIx = (gen_next_gate gp st g).genInpIx := rfl

theorem comRun_decom_stable (gp : GenPar) (gs : List Gate) (st : GenSt) (j : Nat)
    (hj : j < 2 * st.genInpIx) : (comRun gp st gs).decom j = st.decom j := by
  induction gs generalizing st with
  | nil => rfl
  | cons g gs ih =>
    show (comRun gp (com_next_gate gp st g) gs).decom j = st.decom j
    rw [ih (com_next_gate gp st g)
      (lt_of_lt_of_le hj (by
        rw [com_next_gate_genInpIx]
        exact Nat.mul_le_mul_left 2 (gen_next_gate_genInpIx_le gp st g)))]
    rw [com_next_gate_decom]
    exact gen_next_gate_decom_frame gp st g j hj

theorem evl_next_gate_decom (ep : EvlPar) (st : EvlSt) (g : Gate) :
    (evl_next_gate ep st g).decom = st.decom := by
  unfold evl_next_gate
  by_cases h1 : g.tag = GateTag.GEN_INP
  · simp [h1]
  · by_cases h2 : g.tag = GateTag.EVL_INP
    · simp [h1, h2]
    · simp only [h1, h2, if_false]
      split <;> (try split) <;> rfl

/-! ## Claim C10: per-gate frame -/

/-- C10: every call to `gen_next_gate` and every call to `evl_next_gate`,
for every gate kind, writes exactly one label into the wire table, at index
`gate.m_idx` (every other entry is unchanged), and increments the gate index
`m_gate_ix` by exactly one. -/
theorem C10_wire_table_frame (gp : GenPar) (ep : EvlPar) (stG : GenSt)
    (stE : EvlSt) (g : Gate) :
    (gen_next_gate gp stG g).w =
      (fun j => if j = g.idx then (gen_next_gate gp stG g).w g.idx else stG.w j) ∧
    (gen_next_gate gp stG g).gateIx = stG.gateIx + 1 ∧
    (evl_next_gate ep stE g).w =
      (fun j => if j = g.idx then (evl_next_gate ep stE g).w g.idx else stE.w j) ∧
    (evl_next_gate ep stE g).gateIx = stE.gateIx + 1 := by
  refine ⟨?_, gen_next_gate_gateIx gp stG g, ?_, evl_next_gate_gateIx ep stE g⟩
  · funext j
    by_cases hj : j = g.idx
    · simp [hj]
    · simp [hj, gen_next_gate_w_frame gp stG g j hj]
  · funext j
    by_cases hj : j = g.idx
    · simp [hj]
    · simp [hj, evl_next_gate_w_frame ep stE g j hj]

/-! ## Claim C3: pass_check -/

theorem foldl_and_eq_all (p : Nat → Bool) (l : List Nat) (a : Bool) :
    l.foldl (fun b i => b && p i) a = (a && l.all p) := by
  induction l generalizing a with
  | nil => simp
  | cons x xs ih => simp [List.foldl_cons, ih, Bool.and_assoc]

/-- C3: `pass_check()` returns true iff for every generator-input index
`i < gen_inp_cnt` the `k`-bit hash of the held decommitment equals the
stored commitment; it is false as soon as one differs. -/
theorem C3_pass_check_iff (pp : PP) (genInpCnt : Nat) (st : EvlSt) :
    pass_check pp genInpCnt st = true ↔
      ∀ ix < genInpCnt, pp.Hk (st.decom ix) = st.com ix := by
  unfold pass_check
  rw [foldl_and_eq_all]
  simp [List.all_eq_true, List.mem_range]

/-! ## Per-branch shape lemmas for the generator's rows -/

theorem genRow0_ob_grr (gp : GenPar) (st : GenSt) (c0 b0 : Nat)
    (hg : gp.pp.grr = true) : (genRow0 gp st c0 b0).2.2.1 = st.oBufr := by
  unfold genRow0
  rw [if_pos hg]
  split <;> rfl

theorem genRow0_pi_grr (gp : GenPar) (st : GenSt) (c0 b0 : Nat)
    (hg : gp.pp.grr = true) : (genRow0 gp st c0 b0).2.2.2 = st.prngIx := by
  unfold genRow0
  rw [if_pos hg]
  split <;> rfl

theorem genRow0_snd (gp : GenPar) (st : GenSt) (c0 b0 : Nat) :
    (genRow0 gp st c0 b0).2.1 = (genRow0 gp st c0 b0).1 ^^^ st.R := by
  unfold genRow0
  by_cases hg : gp.pp.grr = true
  · rw [if_pos hg]
    by_cases hb : b0 = 1
    · simp [hb, xor_xor_cancel]
    · simp [hb]
  · rw [if_neg hg]

theorem genRows2_ob_len (gp : GenPar) (st : GenSt) (g : Gate)
    (hg : gp.pp.grr = true) :
    (genRows2 gp st g).ob.len = st.oBufr.len + 3 * gp.pp.K := by
  unfold genRows2
  simp only [ByteStr.len_append, ByteStr.len_ofKey, genRow0_ob_grr gp st _ _ hg]
  omega

theorem genRows1_ob_len (gp : GenPar) (st : GenSt) (g : Gate)
    (hg : gp.pp.grr = true) :
    (genRows1 gp st g).ob.len = st.oBufr.len + gp.pp.K := by
  unfold genRows1
  simp only [ByteStr.len_append, ByteStr.len_ofKey, genRow0_ob_grr gp st _ _ hg]

theorem evlRows2_ix (ep : EvlPar) (st : EvlSt) (g : Gate)
    (hg : ep.pp.grr = true) : (evlRows2 ep st g).2 = st.ix + 3 * ep.pp.K := by
  unfold evlRows2
  rw [if_pos hg]

theorem evlRows1_ix (ep : EvlPar) (st : EvlSt) (g : Gate)
    (hg : ep.pp.grr = true) : (evlRows1 ep st g).2 = st.ix + ep.pp.K := by
  unfold evlRows1
  rw [if_pos hg]

/-! ## Claim C2: per-gate byte counts -/

theorem gen_next_gate_oBufr_len (gp : GenPar) (st : GenSt) (g : Gate)
    (hg : gp.pp.grr = true) (hf : gp.pp.freeXor = true)
    (har : g.tag ≠ GateTag.GEN_INP → g.tag ≠ GateTag.EVL_INP →
      g.inputs.length = 1 ∨ g.inputs.length = 2) :
    (gen_next_gate gp st g).oBufr.len = st.oBufr.len + bytesFor gp.pp.K g := by
  cases htag : g.tag with
  | GEN_INP =>
    simp [gen_next_gate, bytesFor, htag, ByteStr.len_append, ByteStr.len_ofKey]
    omega
  | EVL_INP =>
    simp [gen_next_gate, bytesFor, htag, ByteStr.len_append, ByteStr.len_ofKey]
    omega
  | GEN_OUT =>
    by_cases hx : is_xor g = true
    · simp [gen_next_gate, bytesFor, htag, hf, hx, ByteStr.len_pushByte]
    · rcases har (by simp [htag]) (by simp [htag]) with h1 | h2
      · have hne2 : ¬ g.inputs.length = 2 := by omega
        simp [gen_next_gate, bytesFor, htag, hf, hx, hne2, ByteStr.len_pushByte,
          genRows1_ob_len gp st g hg]
        omega
      · simp [gen_next_gate, bytesFor, htag, hf, hx, h2, ByteStr.len_pushByte,
          genRows2_ob_len gp st g hg]
        omega
  | EVL_OUT =>
    by_cases hx : is_xor g = true
    · simp [gen_next_gate, bytesFor, htag, hf, hx, ByteStr.len_pushByte]
    · rcases har (by simp [htag]) (by simp [htag]) with h1 | h2
      · have hne2 : ¬ g.inputs.length = 2 := by omega
        simp [gen_next_gate, bytesFor, htag, hf, hx, hne2, ByteStr.len_pushByte,
          genRows1_ob_len gp st g hg]
        omega
      · simp [gen_next_gate, bytesFor, htag, hf, hx, h2, ByteStr.len_pushByte,
          genRows2_ob_len gp st g hg]
        omega
  | INTERNAL =>
    by_cases hx : is_xor g = true
    · simp [gen_next_gate, bytesFor, htag, hf, hx]
    · rcases har (by simp [htag]) (by simp [htag]) with h1 | h2
      · have hne2 : ¬ g.inputs.length = 2 := by omega
        simp [gen_next_gate, bytesFor, htag, hf, hx, hne2,
          genRows1_ob_len gp st g hg]
      · simp [gen_next_gate, bytesFor, htag, hf, hx, h2,
          genRows2_ob_len gp st g hg]

theorem evl_next_gate_ix_adv (ep : EvlPar) (st : EvlSt) (g : Gate)
    (hg : ep.pp.grr = true) (hf : ep.pp.freeXor = true)
    (har : g.tag ≠ GateTag.GEN_INP → g.tag ≠ GateTag.EVL_INP →
      g.inputs.length = 1 ∨ g.inputs.length = 2) :
    (evl_next_gate ep st g).ix = st.ix + bytesFor ep.pp.K g := by
  cases htag : g.tag with
  | GEN_INP => simp [evl_next_gate, bytesFor, htag]
  | EVL_INP => simp [evl_next_gate, bytesFor, htag]
  | GEN_OUT =>
    by_cases hx : is_xor g = true
    · simp [evl_next_gate, bytesFor, htag, hf, hx]
    · rcases har (by simp [htag]) (by simp [htag]) with h1 | h2
      · have hne2 : ¬ g.inputs.length = 2 := by omega
        simp [evl_next_gate, bytesFor, htag, hf, hx, hne2, evlRows1_ix ep st g hg]
        omega
      · simp [evl_next_gate, bytesFor, htag, hf, hx, h2, evlRows2_ix ep st g hg]
        omega
  | EVL_OUT =>
    by_cases hx : is_xor g = true
    · simp [evl_next_gate, bytesFor, htag, hf, hx]
    · rcases har (by simp [htag]) (by simp [htag]) with h1 | h2
      · have hne2 : ¬ g.inputs.length = 2 := by omega
        simp [evl_next_gate, bytesFor, htag, hf, hx, hne2, evlRows1_ix ep st g hg]
        omega
      · simp [evl_next_gate, bytesFor, htag, hf, hx, h2, evlRows2_ix ep st g hg]
        omega
  | INTERNAL =>
    by_cases hx : is_xor g = true
    · simp [evl_next_gate, bytesFor, htag, hf, hx]
    · rcases har (by simp [htag]) (by simp [htag]) with h1 | h2
      · have hne2 : ¬ g.inputs.length = 2 := by omega
        simp [evl_next_gate, bytesFor, htag, hf, hx, hne2, evlRows1_ix ep st g hg]
      · simp [evl_next_gate, bytesFor, htag, hf, hx, h2, evlRows2_ix ep st g hg]

/-- C2: under GRR and FREE_XOR, `gen_next_gate` appends to `out_buffer`
exactly `bytesFor K gate` bytes — `3K` for a non-XOR 2-input internal gate,
`K` for a non-XOR 1-input internal gate, `0` for XOR gates, `2K` for
`GEN_INP`, `2K` for `EVL_INP`, plus one tagging byte for `GEN_OUT`/`EVL_OUT`
— and `evl_next_gate` advances the `in_buffer` cursor by exactly the same
count. -/
theorem C2_row_count (gp : GenPar) (ep : EvlPar) (stG : GenSt) (stE : EvlSt)
    (g : Gate) (hg : gp.pp.grr = true) (hf : gp.pp.freeXor = true)
    (hg' : ep.pp.grr = true) (hf' : ep.pp.freeXor = true)
    (hK : ep.pp.K = gp.pp.K)
    (har : g.tag ≠ GateTag.GEN_INP → g.tag ≠ GateTag.EVL_INP →
      g.inputs.length = 1 ∨ g.inputs.length = 2) :
    (gen_next_gate gp stG g).oBufr.len = stG.oBufr.len + bytesFor gp.pp.K g ∧
    (evl_next_gate ep stE g).ix = stE.ix + bytesFor gp.pp.K g := by
  refine ⟨gen_next_gate_oBufr_len gp stG g hg hf har, ?_⟩
  rw [← hK]
  exact evl_next_gate_ix_adv ep stE g hg' hf' har

/-- C2 at a concrete input: the AND output gate of the witness circuit emits
`3K + 1` bytes and the evaluator consumes the same count. -/
theorem C2_row_count_witness :
    (gen_next_gate gpW (gen_init gpW) ⟨GateTag.EVL_OUT, [0, 1], 8, 2⟩).oBufr.len =
      (gen_init gpW).oBufr.len + bytesFor gpW.pp.K ⟨GateTag.EVL_OUT, [0, 1], 8, 2⟩ ∧
    (evl_next_gate epW evlW ⟨GateTag.EVL_OUT, [0, 1], 8, 2⟩).ix =
      evlW.ix + bytesFor gpW.pp.K ⟨GateTag.EVL_OUT, [0, 1], 8, 2⟩ :=
  C2_row_count gpW epW (gen_init gpW) evlW ⟨GateTag.EVL_OUT, [0, 1], 8, 2⟩
    rfl rfl rfl rfl rfl (fun _ _ => Or.inr rfl)

/-! ## Claim C6: free-XOR gates -/

/-- C6: under FREE_XOR, an XOR-shaped gate makes neither party move its
buffer for the gate's rows (only the single tagging byte when the gate is
output-tagged); the generator's output zero label is the XOR of the input
zero labels (the single input's label at 1-arity), and the evaluator's
active label is the XOR of the input labels it holds. -/
theorem C6_free_xor (gp : GenPar) (ep : EvlPar) (stG : GenSt) (stE : EvlSt)
    (g : Gate) (hf : gp.pp.freeXor = true) (hf' : ep.pp.freeXor = true)
    (hx : is_xor g = true)
    (ht1 : g.tag ≠ GateTag.GEN_INP) (ht2 : g.tag ≠ GateTag.EVL_INP) :
    (gen_next_gate gp stG g).oBufr.len =
      stG.oBufr.len +
        (if g.tag = GateTag.EVL_OUT ∨ g.tag = GateTag.GEN_OUT then 1 else 0) ∧
    (gen_next_gate gp stG g).w g.idx =
      (if g.inputs.length = 2 then
        stG.w (g.inputs.getD 0 0) ^^^ stG.w (g.inputs.getD 1 0)
      else stG.w (g.inputs.getD 0 0)) ∧
    (evl_next_gate ep stE g).ix =
      stE.ix +
        (if g.tag = GateTag.EVL_OUT ∨ g.tag = GateTag.GEN_OUT then 1 else 0) ∧
    (evl_next_gate ep stE g).w g.idx =
      (if g.inputs.length = 2 then
        stE.w (g.inputs.getD 0 0) ^^^ stE.w (g.inputs.getD 1 0)
      else stE.w (g.inputs.getD 0 0)) := by
  cases htag : g.tag with
  | GEN_INP => exact absurd htag ht1
  | EVL_INP => exact absurd htag ht2
  | GEN_OUT =>
    refine ⟨?_, ?_, ?_, ?_⟩ <;>
      simp [gen_next_gate, evl_next_gate, htag, hf, hf', hx,
        ByteStr.len_pushByte]
  | EVL_OUT =>
    refine ⟨?_, ?_, ?_, ?_⟩ <;>
      simp [gen_next_gate, evl_next_gate, htag, hf, hf', hx,
        ByteStr.len_pushByte]
  | INTERNAL =>
    refine ⟨?_, ?_, ?_, ?_⟩ <;>
      simp [gen_next_gate, evl_next_gate, htag, hf, hf', hx]

/-- C6 at a concrete input: the XOR-shaped output gate `table = 0x6` on the
witness states. -/
theorem C6_free_xor_witness :
    (gen_next_gate gpW (gen_init gpW) ⟨GateTag.EVL_OUT, [0, 1], 6, 2⟩).oBufr.len =
      (gen_init gpW).oBufr.len + 1 ∧
    (gen_next_gate gpW (gen_init gpW) ⟨GateTag.EVL_OUT, [0, 1], 6, 2⟩).w 2 =
      (gen_init gpW).w 0 ^^^ (gen_init gpW).w 1 ∧
    (evl_next_gate epW evlW ⟨GateTag.EVL_OUT, [0, 1], 6, 2⟩).ix = evlW.ix + 1 ∧
    (evl_next_gate epW evlW ⟨GateTag.EVL_OUT, [0, 1], 6, 2⟩).w 2 =
      evlW.w 0 ^^^ evlW.w 1 := by
  have h := C6_free_xor gpW epW (gen_init gpW) evlW ⟨GateTag.EVL_OUT, [0, 1], 6, 2⟩
    rfl rfl (by decide) (by decide) (by decide)
  simpa using h

/-! ## Claim C4: the R-offset invariant on the generator side -/

/-- C4: `gen_init` samples `R` with `lsb(R) = 1`, and for every gate kind
(`GEN_INP`, `EVL_INP`, internal with or without GRR, free-XOR) the label
pair the generator produces satisfies one-label = zero-label ^^^ R, the
zero label being what `gen_next_gate` stores into `W[gate.m_idx]`. -/
theorem C4_R_offset (gp : GenPar) (st : GenSt) (g : Gate) :
    (gen_init gp).R % 2 = 1 ∧
    genLabelOne gp st g = (gen_next_gate gp st g).w g.idx ^^^ st.R := by
  refine ⟨setIthBit_zero_one_mod_two _, ?_⟩
  cases htag : g.tag with
  | GEN_INP => simp [genLabelOne, gen_next_gate, htag]
  | EVL_INP => simp [genLabelOne, gen_next_gate, htag]
  | GEN_OUT =>
    by_cases hx : gp.pp.freeXor = true ∧ is_xor g = true
    · by_cases h2 : g.inputs.length = 2
      · simp only [genLabelOne, gen_next_gate, htag, hx, h2, if_true, if_false]
        simp [hx, h2]
        rw [Nat.xor_assoc, Nat.xor_comm st.R, ← Nat.xor_assoc]
      · simp [genLabelOne, gen_next_gate, htag, hx, h2]
    · by_cases h2 : g.inputs.length = 2
      · simp [genLabelOne, gen_next_gate, genRows2, htag, hx, h2, genRow0_snd]
      · simp [genLabelOne, gen_next_gate, genRows1, htag, hx, h2, genRow0_snd]
  | EVL_OUT =>
    by_cases hx : gp.pp.freeXor = true ∧ is_xor g = true
    · by_cases h2 : g.inputs.length = 2
      · simp only [genLabelOne, gen_next_gate, htag, hx, h2, if_true, if_false]
        simp [hx, h2]
        rw [Nat.xor_assoc, Nat.xor_comm st.R, ← Nat.xor_assoc]
      · simp [genLabelOne, gen_next_gate, htag, hx, h2]
    · by_cases h2 : g.inputs.length = 2
      · simp [genLabelOne, gen_next_gate, genRows2, htag, hx, h2, genRow0_snd]
      · simp [genLabelOne, gen_next_gate, genRows1, htag, hx, h2, genRow0_snd]
  | INTERNAL =>
    by_cases hx : gp.pp.freeXor = true ∧ is_xor g = true
    · by_cases h2 : g.inputs.length = 2
      · simp only [genLabelOne, gen_next_gate, htag, hx, h2, if_true, if_false]
        simp [hx, h2]
        rw [Nat.xor_assoc, Nat.xor_comm st.R, ← Nat.xor_assoc]
      · simp [genLabelOne, gen_next_gate, htag, hx, h2]
    · by_cases h2 : g.inputs.length = 2
      · simp [genLabelOne, gen_next_gate, genRows2, htag, hx, h2, genRow0_snd]
      · simp [genLabelOne, gen_next_gate, genRows1, htag, hx, h2, genRow0_snd]


/-! ## Claim C5: row order under GRR -/

theorem genRow0_fst_grr (gp : GenPar) (st : GenSt) (c0 b0 : Nat)
    (hg : gp.pp.grr = true) :
    (genRow0 gp st c0 b0).1 = if b0 = 1 then c0 ^^^ st.R else c0 := by
  unfold genRow0
  rw [if_pos hg]
  by_cases hb : b0 = 1 <;> simp [hb]

theorem genRow0_snd_grr (gp : GenPar) (st : GenSt) (c0 b0 : Nat)
    (hg : gp.pp.grr = true) :
    (genRow0 gp st c0 b0).2.1 = if b0 = 1 then c0 else c0 ^^^ st.R := by
  unfold genRow0
  rw [if_pos hg]
  by_cases hb : b0 = 1 <;> simp [hb]

theorem slice_three_0 (K x1 x2 x3 : Nat) :
    (((ByteStr.empty.append (ByteStr.ofKey K x1)).append
      (ByteStr.ofKey K x2)).append (ByteStr.ofKey K x3)).slice 0 K =
      x1 % 2 ^ (8 * K) := by
  rw [ByteStr.empty_append]
  rw [ByteStr.slice_append_left _ _ 0 K
    (by simp [ByteStr.len_append, ByteStr.len_ofKey])]
  rw [ByteStr.slice_append_left _ _ 0 K (by simp [ByteStr.len_ofKey])]
  rw [ByteStr.slice_zero]
  exact Nat.mod_mod_of_dvd _ dvd_rfl

theorem slice_three_1 (K x1 x2 x3 : Nat) :
    (((ByteStr.empty.append (ByteStr.ofKey K x1)).append
      (ByteStr.ofKey K x2)).append (ByteStr.ofKey K x3)).slice K K =
      x2 % 2 ^ (8 * K) := by
  rw [ByteStr.empty_append]
  rw [ByteStr.slice_append_left _ _ K K
    (by simp [ByteStr.len_append, ByteStr.len_ofKey])]
  have h := ByteStr.slice_append_right (ByteStr.ofKey K x1) (ByteStr.ofKey K x2)
    0 K (ByteStr.WF_ofKey K x1)
  have e : (ByteStr.ofKey K x1).len + 0 = K := by simp [ByteStr.len_ofKey]
  rw [e] at h
  rw [h, ByteStr.slice_zero]
  exact Nat.mod_mod_of_dvd _ dvd_rfl

theorem slice_three_2 (K x1 x2 x3 : Nat) :
    (((ByteStr.empty.append (ByteStr.ofKey K x1)).append
      (ByteStr.ofKey K x2)).append (ByteStr.ofKey K x3)).slice (2 * K) K =
      x3 % 2 ^ (8 * K) := by
  rw [ByteStr.empty_append]
  have h := ByteStr.slice_append_right
    ((ByteStr.ofKey K x1).append (ByteStr.ofKey K x2)) (ByteStr.ofKey K x3)
    0 K (ByteStr.WF_append (ByteStr.WF_ofKey K x1) (ByteStr.WF_ofKey K x2))
  have e : ((ByteStr.ofKey K x1).append (ByteStr.ofKey K x2)).len + 0 = 2 * K := by
    simp [ByteStr.len_append, ByteStr.len_ofKey]
    omega
  rw [e] at h
  rw [h, ByteStr.slice_zero]
  exact Nat.mod_mod_of_dvd _ dvd_rfl

theorem zpair_select (br b0 c0 R : Nat) (hb0 : b0 < 2) (hbr : br < 2) :
    (if br = b0 then c0 else c0 ^^^ R) =
      (if br = 1 then (if b0 = 1 then c0 else c0 ^^^ R)
      else (if b0 = 1 then c0 ^^^ R else c0)) := by
  have h0 : b0 = 0 ∨ b0 = 1 := by omega
  have hr : br = 0 ∨ br = 1 := by omega
  rcases h0 with h0 | h0 <;> rcases hr with hr | hr <;> simp [h0, hr]

theorem key_step_one (X0 R : Nat) :
    (if X0 % 2 ^^^ 1 = 1 then X0 ^^^ R else X0) =
      (if X0 % 2 = 1 then X0 ^^^ R else X0) ^^^ R := by
  rcases Nat.mod_two_eq_zero_or_one X0 with h | h <;> simp [h, xor_xor_cancel]

theorem key_step_zero (X0 R : Nat) :
    (if X0 % 2 ^^^ 0 = 1 then X0 ^^^ R else X0) =
      (if X0 % 2 = 1 then X0 ^^^ R else X0) ^^^ R ^^^ R := by
  rw [xor_xor_cancel]
  rcases Nat.mod_two_eq_zero_or_one X0 with h | h <;> simp [h]

theorem rowCT_match_1 (pp : PP) (R tweak table X0 Y0 : Nat) :
    rowCT pp R tweak table X0 Y0 1 =
      pp.mask (pp.kdf256 tweak
          ((if X0 % 2 = 1 then X0 ^^^ R else X0) ^^^ R)
          (if Y0 % 2 = 1 then Y0 ^^^ R else Y0)) ^^^
        (if bitOf table (1 ^^^ (2 * (Y0 % 2) + X0 % 2)) = 1 then
          (if bitOf table (2 * (Y0 % 2) + X0 % 2) = 1 then
            pp.mask (pp.kdf256 tweak (if X0 % 2 = 1 then X0 ^^^ R else X0)
              (if Y0 % 2 = 1 then Y0 ^^^ R else Y0))
          else pp.mask (pp.kdf256 tweak (if X0 % 2 = 1 then X0 ^^^ R else X0)
              (if Y0 % 2 = 1 then Y0 ^^^ R else Y0)) ^^^ R)
        else
          (if bitOf table (2 * (Y0 % 2) + X0 % 2) = 1 then
            pp.mask (pp.kdf256 tweak (if X0 % 2 = 1 then X0 ^^^ R else X0)
              (if Y0 % 2 = 1 then Y0 ^^^ R else Y0)) ^^^ R
          else pp.mask (pp.kdf256 tweak (if X0 % 2 = 1 then X0 ^^^ R else X0)
              (if Y0 % 2 = 1 then Y0 ^^^ R else Y0)))) := by
  simp only [rowCT]
  rw [zpair_select _ _ _ _ (bitOf_lt_two _ _) (bitOf_lt_two _ _)]
  rw [key_step_one]
  norm_num

theorem rowCT_match_2 (pp : PP) (R tweak table X0 Y0 : Nat) :
    rowCT pp R tweak table X0 Y0 2 =
      pp.mask (pp.kdf256 tweak
          ((if X0 % 2 = 1 then X0 ^^^ R else X0) ^^^ R ^^^ R)
          ((if Y0 % 2 = 1 then Y0 ^^^ R else Y0) ^^^ R)) ^^^
        (if bitOf table (2 ^^^ (2 * (Y0 % 2) + X0 % 2)) = 1 then
          (if bitOf table (2 * (Y0 % 2) + X0 % 2) = 1 then
            pp.mask (pp.kdf256 tweak (if X0 % 2 = 1 then X0 ^^^ R else X0)
              (if Y0 % 2 = 1 then Y0 ^^^ R else Y0))
          else pp.mask (pp.kdf256 tweak (if X0 % 2 = 1 then X0 ^^^ R else X0)
              (if Y0 % 2 = 1 then Y0 ^^^ R else Y0)) ^^^ R)
        else
          (if bitOf table (2 * (Y0 % 2) + X0 % 2) = 1 then
            pp.mask (pp.kdf256 tweak (if X0 % 2 = 1 then X0 ^^^ R else X0)
              (if Y0 % 2 = 1 then Y0 ^^^ R else Y0)) ^^^ R
          else pp.mask (pp.kdf256 tweak (if X0 % 2 = 1 then X0 ^^^ R else X0)
              (if Y0 % 2 = 1 then Y0 ^^^ R else Y0)))) := by
  simp only [rowCT]
  rw [zpair_select _ _ _ _ (bitOf_lt_two _ _) (bitOf_lt_two _ _)]
  rw [key_step_zero X0 R, key_step_one Y0 R]

theorem rowCT_match_3 (pp : PP) (R tweak table X0 Y0 : Nat) :
    rowCT pp R tweak table X0 Y0 3 =
      pp.mask (pp.kdf256 tweak
          ((if X0 % 2 = 1 then X0 ^^^ R else X0) ^^^ R ^^^ R ^^^ R)
          ((if Y0 % 2 = 1 then Y0 ^^^ R else Y0) ^^^ R)) ^^^
        (if bitOf table (3 ^^^ (2 * (Y0 % 2) + X0 % 2)) = 1 then
          (if bitOf table (2 * (Y0 % 2) + X0 % 2) = 1 then
            pp.mask (pp.kdf256 tweak (if X0 % 2 = 1 then X0 ^^^ R else X0)
              (if Y0 % 2 = 1 then Y0 ^^^ R else Y0))
          else pp.mask (pp.kdf256 tweak (if X0 % 2 = 1 then X0 ^^^ R else X0)
              (if Y0 % 2 = 1 then Y0 ^^^ R else Y0)) ^^^ R)
        else
          (if bitOf table (2 * (Y0 % 2) + X0 % 2) = 1 then
            pp.mask (pp.kdf256 tweak (if X0 % 2 = 1 then X0 ^^^ R else X0)
              (if Y0 % 2 = 1 then Y0 ^^^ R else Y0)) ^^^ R
          else pp.mask (pp.kdf256 tweak (if X0 % 2 = 1 then X0 ^^^ R else X0)
              (if Y0 % 2 = 1 then Y0 ^^^ R else Y0)))) := by
  simp only [rowCT]
  rw [zpair_select _ _ _ _ (bitOf_lt_two _ _) (bitOf_lt_two _ _)]
  rw [show ((if X0 % 2 = 1 then X0 ^^^ R else X0) ^^^ R ^^^ R ^^^ R) =
    ((if X0 % 2 = 1 then X0 ^^^ R else X0) ^^^ R) from by rw [xor_xor_cancel]]
  rw [key_step_one X0 R, key_step_one Y0 R]

theorem rowCT_lt (pp : PP) (R tweak table X0 Y0 r : Nat) (hR : R < 2 ^ pp.k) :
    rowCT pp R tweak table X0 Y0 r < 2 ^ pp.k := by
  simp only [rowCT]
  apply Nat.xor_lt_two_pow (pp.mask_lt _)
  split
  · exact pp.mask_lt _
  · exact Nat.xor_lt_two_pow (pp.mask_lt _) hR

theorem genRows2_ob_grr_struct (gp : GenPar) (st : GenSt) (g : Gate)
    (hg : gp.pp.grr = true) :
    (genRows2 gp st g).ob =
      ((st.oBufr.append (ByteStr.ofKey gp.pp.K
          (rowCT gp.pp st.R (bcast64 st.gateIx) g.table
            (st.w (g.inputs.getD 0 0)) (st.w (g.inputs.getD 1 0)) 1))).append
        (ByteStr.ofKey gp.pp.K
          (rowCT gp.pp st.R (bcast64 st.gateIx) g.table
            (st.w (g.inputs.getD 0 0)) (st.w (g.inputs.getD 1 0)) 2))).append
        (ByteStr.ofKey gp.pp.K
          (rowCT gp.pp st.R (bcast64 st.gateIx) g.table
            (st.w (g.inputs.getD 0 0)) (st.w (g.inputs.getD 1 0)) 3)) := by
  rw [rowCT_match_1, rowCT_match_2, rowCT_match_3]
  unfold genRows2
  simp only [genRow0_ob_grr gp st _ _ hg, genRow0_fst_grr gp st _ _ hg,
    genRow0_snd_grr gp st _ _ hg, Gate.tbl]

theorem gen_next_gate_oBufr_rows2 (gp : GenPar) (st : GenSt) (g : Gate)
    (ht1 : g.tag ≠ GateTag.GEN_INP) (ht2 : g.tag ≠ GateTag.EVL_INP)
    (hx : is_xor g = false) (h2 : g.inputs.length = 2) :
    (gen_next_gate gp st g).oBufr =
      if g.tag = GateTag.EVL_OUT || g.tag = GateTag.GEN_OUT then
        (genRows2 gp st g).ob.pushByte ((genRows2 gp st g).zk % 2)
      else (genRows2 gp st g).ob := by
  unfold gen_next_gate
  simp [ht1, ht2, hx, h2]

/-- The content of the three emitted row slots of a 2-input non-XOR gate
under GRR, shared by the row-order claim and the correctness proof. -/
theorem gen_chunk_slices (gp : GenPar) (st : GenSt) (g : Gate)
    (hg : gp.pp.grr = true) (hx : is_xor g = false) (h2 : g.inputs.length = 2)
    (ht1 : g.tag ≠ GateTag.GEN_INP) (ht2 : g.tag ≠ GateTag.EVL_INP)
    (hob : st.oBufr = ByteStr.empty) (hR : st.R < 2 ^ gp.pp.k) :
    (gen_next_gate gp st g).oBufr.slice 0 gp.pp.K =
      rowCT gp.pp st.R (bcast64 st.gateIx) g.table
        (st.w (g.inputs.getD 0 0)) (st.w (g.inputs.getD 1 0)) 1 ∧
    (gen_next_gate gp st g).oBufr.slice gp.pp.K gp.pp.K =
      rowCT gp.pp st.R (bcast64 st.gateIx) g.table
        (st.w (g.inputs.getD 0 0)) (st.w (g.inputs.getD 1 0)) 2 ∧
    (gen_next_gate gp st g).oBufr.slice (2 * gp.pp.K) gp.pp.K =
      rowCT gp.pp st.R (bcast64 st.gateIx) g.table
        (st.w (g.inputs.getD 0 0)) (st.w (g.inputs.getD 1 0)) 3 := by
  have hlen : (genRows2 gp st g).ob.len = 3 * gp.pp.K := by
    rw [genRows2_ob_len gp st g hg, hob]
    simp [ByteStr.empty]
  have hchunk : ∀ off n, off + n ≤ 3 * gp.pp.K →
      (gen_next_gate gp st g).oBufr.slice off n =
        (genRows2 gp st g).ob.slice off n := by
    intro off n hn
    rw [gen_next_gate_oBufr_rows2 gp st g ht1 ht2 hx h2]
    by_cases ho : (g.tag = GateTag.EVL_OUT || g.tag = GateTag.GEN_OUT) = true
    · rw [if_pos ho]
      exact ByteStr.slice_append_left _ _ off n (by rw [hlen]; exact hn)
    · rw [if_neg ho]
  have hmod : ∀ r, rowCT gp.pp st.R (bcast64 st.gateIx) g.table
      (st.w (g.inputs.getD 0 0)) (st.w (g.inputs.getD 1 0)) r % 2 ^ (8 * gp.pp.K) =
      rowCT gp.pp st.R (bcast64 st.gateIx) g.table
        (st.w (g.inputs.getD 0 0)) (st.w (g.inputs.getD 1 0)) r := fun r =>
    Nat.mod_eq_of_lt (lt_two_pow_of_lt_of_le
      (rowCT_lt gp.pp st.R _ g.table _ _ r hR) gp.pp.k_le_8K)
  refine ⟨?_, ?_, ?_⟩
  · rw [hchunk 0 gp.pp.K (by omega), genRows2_ob_grr_struct gp st g hg, hob,
      slice_three_0, hmod]
  · rw [hchunk gp.pp.K gp.pp.K (by omega), genRows2_ob_grr_struct gp st g hg, hob,
      slice_three_1, hmod]
  · rw [hchunk (2 * gp.pp.K) gp.pp.K (by omega), genRows2_ob_grr_struct gp st g hg,
      hob, slice_three_2, hmod]

/-- C5: for a 2-input non-XOR gate under GRR, the emitted bytes hold the
garbled rows in the fixed key-pair order `(X[px],Y[py])` (omitted),
`(X[1-px],Y[py])`, `(X[px],Y[1-py])`, `(X[1-px],Y[1-py])`: the ciphertext
for garbled index `r ∈ {1,2,3}` sits at byte offset `(r-1)·K`, which is
where the evaluator reads it. -/
theorem C5_row_order (gp : GenPar) (st : GenSt) (g : Gate)
    (hg : gp.pp.grr = true) (hx : is_xor g = false) (h2 : g.inputs.length = 2)
    (ht1 : g.tag ≠ GateTag.GEN_INP) (ht2 : g.tag ≠ GateTag.EVL_INP)
    (hob : st.oBufr = ByteStr.empty) (hR : st.R < 2 ^ gp.pp.k) :
    (gen_next_gate gp st g).oBufr.slice 0 gp.pp.K =
      rowCT gp.pp st.R (bcast64 st.gateIx) g.table
        (st.w (g.inputs.getD 0 0)) (st.w (g.inputs.getD 1 0)) 1 ∧
    (gen_next_gate gp st g).oBufr.slice gp.pp.K gp.pp.K =
      rowCT gp.pp st.R (bcast64 st.gateIx) g.table
        (st.w (g.inputs.getD 0 0)) (st.w (g.inputs.getD 1 0)) 2 ∧
    (gen_next_gate gp st g).oBufr.slice (2 * gp.pp.K) gp.pp.K =
      rowCT gp.pp st.R (bcast64 st.gateIx) g.table
        (st.w (g.inputs.getD 0 0)) (st.w (g.inputs.getD 1 0)) 3 :=
  gen_chunk_slices gp st g hg hx h2 ht1 ht2 hob hR

/-- C5 at a concrete input: the AND gate, freshly initialized generator. -/
theorem C5_row_order_witness :
    (gen_next_gate gpW (gen_init gpW) ⟨GateTag.INTERNAL, [0, 1], 8, 2⟩).oBufr.slice
        0 gpW.pp.K =
      rowCT gpW.pp (gen_init gpW).R (bcast64 (gen_init gpW).gateIx)
        (8 : Nat) ((gen_init gpW).w 0) ((gen_init gpW).w 1) 1 ∧
    (gen_next_gate gpW (gen_init gpW) ⟨GateTag.INTERNAL, [0, 1], 8, 2⟩).oBufr.slice
        gpW.pp.K gpW.pp.K =
      rowCT gpW.pp (gen_init gpW).R (bcast64 (gen_init gpW).gateIx)
        (8 : Nat) ((gen_init gpW).w 0) ((gen_init gpW).w 1) 2 ∧
    (gen_next_gate gpW (gen_init gpW) ⟨GateTag.INTERNAL, [0, 1], 8, 2⟩).oBufr.slice
        (2 * gpW.pp.K) gpW.pp.K =
      rowCT gpW.pp (gen_init gpW).R (bcast64 (gen_init gpW).gateIx)
        (8 : Nat) ((gen_init gpW).w 0) ((gen_init gpW).w 1) 3 :=
  C5_row_order gpW (gen_init gpW) ⟨GateTag.INTERNAL, [0, 1], 8, 2⟩
    rfl (by decide) rfl (by decide) (by decide) rfl (by decide)

/-! ## Claim C9: the cross-circuit input-binding rows -/

theorem setIthBit_zero_zero_lt {x k : Nat} (hx : x < 2 ^ k) (hk : 0 < k) :
    setIthBit x 0 0 < 2 ^ k := by
  simp only [setIthBit]
  norm_num
  exact lt_of_le_of_lt (Nat.sub_le _ _)
    (Nat.or_lt_two_pow hx (lt_two_pow_of_lt_of_le (by decide) hk))

theorem slice_app2_0 (a : ByteStr) (ha : a.WF) (K x1 x2 : Nat) :
    ((a.append (ByteStr.ofKey K x1)).append (ByteStr.ofKey K x2)).slice a.len K =
      x1 % 2 ^ (8 * K) := by
  rw [ByteStr.slice_append_left _ _ a.len K
    (by simp [ByteStr.len_append, ByteStr.len_ofKey])]
  exact ByteStr.slice_append_end a (ByteStr.ofKey K x1) ha (ByteStr.WF_ofKey K x1)

theorem slice_app2_1 (a : ByteStr) (ha : a.WF) (K x1 x2 : Nat) :
    ((a.append (ByteStr.ofKey K x1)).append (ByteStr.ofKey K x2)).slice
      (a.len + K) K = x2 % 2 ^ (8 * K) := by
  have h := ByteStr.slice_append_right (a.append (ByteStr.ofKey K x1))
    (ByteStr.ofKey K x2) 0 K (ByteStr.WF_append ha (ByteStr.WF_ofKey K x1))
  have e : (a.append (ByteStr.ofKey K x1)).len + 0 = a.len + K := by
    simp [ByteStr.len_append, ByteStr.len_ofKey]
  rw [e] at h
  rw [h, ByteStr.slice_zero]
  exact Nat.mod_mod_of_dvd _ dvd_rfl

/-- C9: `gen_next_gen_inp_com` draws `out₀` with its low bit forced to 0,
sets `out₁ = out₀ ⊕ R`, XORs the masked-side decommitments selected by the
row into `msg`, takes `in₀` as the first `K` bytes of `msg`, `in₁ = in₀ ⊕ R`,
and appends exactly `2K` bytes: first `KDF128(kx, in_b) ⊕ out_b` for
`b = lsb(msg)`, then the same for `1-b`; `evl_next_gen_inp_com` advances the
cursor by exactly `2K`, decrypts the ciphertext at offset `lsb(out)·K`, and
writes the low bit of the result into `gen_inp_hash` at position `kx`. -/
theorem C9_gen_inp_com (gp : GenPar) (ep : EvlPar) (stG : GenSt) (stE : EvlSt)
    (n : Nat) (row : Nat) (kx : Nat)
    (hk : 0 < gp.pp.k) (hR : stG.R < 2 ^ gp.pp.k) (hwob : stG.oBufr.WF) :
    (gen_next_gen_inp_com gp n stG row kx).oBufr.len = stG.oBufr.len + 2 * gp.pp.K ∧
    (gen_next_gen_inp_com gp n stG row kx).genInpHashIx = stG.genInpHashIx + 1 ∧
    (gen_next_gen_inp_com gp n stG row kx).oBufr.slice stG.oBufr.len gp.pp.K =
      (if bitOf ((List.range n).foldl
          (fun m jx => if bitOf row jx = 1 then
            m ^^^ stG.decom (2 * jx + bitOf gp.genInpMask jx) else m) 0) 0 = 1 then
        (setIthBit (gp.rand stG.prngIx) 0 0 ^^^ stG.R) ^^^
          gp.pp.mask (gp.pp.kdf128 (bcast64 kx)
            (((List.range n).foldl
              (fun m jx => if bitOf row jx = 1 then
                m ^^^ stG.decom (2 * jx + bitOf gp.genInpMask jx) else m) 0) %
                2 ^ (8 * gp.pp.K) ^^^ stG.R))
      else
        setIthBit (gp.rand stG.prngIx) 0 0 ^^^
          gp.pp.mask (gp.pp.kdf128 (bcast64 kx)
            (((List.range n).foldl
              (fun m jx => if bitOf row jx = 1 then
                m ^^^ stG.decom (2 * jx + bitOf gp.genInpMask jx) else m) 0) %
                2 ^ (8 * gp.pp.K)))) ∧
    (gen_next_gen_inp_com gp n stG row kx).oBufr.slice
        (stG.oBufr.len + gp.pp.K) gp.pp.K =
      (if bitOf ((List.range n).foldl
          (fun m jx => if bitOf row jx = 1 then
            m ^^^ stG.decom (2 * jx + bitOf gp.genInpMask jx) else m) 0) 0 = 1 then
        setIthBit (gp.rand stG.prngIx) 0 0 ^^^
          gp.pp.mask (gp.pp.kdf128 (bcast64 kx)
            (((List.range n).foldl
              (fun m jx => if bitOf row jx = 1 then
                m ^^^ stG.decom (2 * jx + bitOf gp.genInpMask jx) else m) 0) %
                2 ^ (8 * gp.pp.K)))
      else
        (setIthBit (gp.rand stG.prngIx) 0 0 ^^^ stG.R) ^^^
          gp.pp.mask (gp.pp.kdf128 (bcast64 kx)
            (((List.range n).foldl
              (fun m jx => if bitOf row jx = 1 then
                m ^^^ stG.decom (2 * jx + bitOf gp.genInpMask jx) else m) 0) %
                2 ^ (8 * gp.pp.K) ^^^ stG.R))) ∧
    (evl_next_gen_inp_com ep n stE row kx).ix = stE.ix + 2 * ep.pp.K ∧
    (evl_next_gen_inp_com ep n stE row kx).genInpHash =
      setIthBit stE.genInpHash kx
        ((stE.iBufr.slice
            (stE.ix + bitOf ((List.range n).foldl
              (fun m jx => if bitOf row jx = 1 then m ^^^ stE.decom jx else m) 0) 0 *
              ep.pp.K) ep.pp.K ^^^
          ep.pp.mask (ep.pp.kdf128 (bcast64 kx)
            ((List.range n).foldl
              (fun m jx => if bitOf row jx = 1 then m ^^^ stE.decom jx else m) 0 %
              2 ^ (8 * ep.pp.K)))) % 2) ∧
    (evl_next_gen_inp_com ep n stE row kx).genInpHashIx = stE.genInpHashIx + 1 := by
  have hout0 : setIthBit (gp.rand stG.prngIx) 0 0 < 2 ^ gp.pp.k :=
    setIthBit_zero_zero_lt (gp.rand_lt _) hk
  have hmsglt : ∀ m : Nat, m % 2 ^ (8 * gp.pp.K) < 2 ^ (8 * gp.pp.K) := fun m =>
    Nat.mod_lt _ (Nat.pos_pow_of_pos _ (by decide))
  have hok : ∀ b m : Nat,
      (if b = 1 then
        (setIthBit (gp.rand stG.prngIx) 0 0 ^^^ stG.R) ^^^
          gp.pp.mask (gp.pp.kdf128 (bcast64 kx) (m % 2 ^ (8 * gp.pp.K) ^^^ stG.R))
      else
        setIthBit (gp.rand stG.prngIx) 0 0 ^^^
          gp.pp.mask (gp.pp.kdf128 (bcast64 kx) (m % 2 ^ (8 * gp.pp.K)))) <
        2 ^ gp.pp.k := by
    intro b m
    split
    · exact Nat.xor_lt_two_pow (Nat.xor_lt_two_pow hout0 hR) (gp.pp.mask_lt _)
    · exact Nat.xor_lt_two_pow hout0 (gp.pp.mask_lt _)
  refine ⟨?_, ?_, ?_, ?_, ?_, ?_, ?_⟩
  · simp [gen_next_gen_inp_com, ByteStr.len_append, ByteStr.len_ofKey]
    omega
  · simp [gen_next_gen_inp_com]
  · simp only [gen_next_gen_inp_com]
    by_cases hb : bitOf ((List.range n).foldl
        (fun m jx => if bitOf row jx = 1 then
          m ^^^ stG.decom (2 * jx + bitOf gp.genInpMask jx) else m) 0) 0 = 1
    · simp only [hb, if_true]
      rw [slice_app2_0 _ hwob]
      exact Nat.mod_eq_of_lt (lt_two_pow_of_lt_of_le
        (by have := hok 1 ((List.range n).foldl
              (fun m jx => if bitOf row jx = 1 then
                m ^^^ stG.decom (2 * jx + bitOf gp.genInpMask jx) else m) 0)
            simpa using this) gp.pp.k_le_8K)
    · simp only [hb, if_false]
      rw [slice_app2_0 _ hwob]
      exact Nat.mod_eq_of_lt (lt_two_pow_of_lt_of_le
        (by have := hok 0 ((List.range n).foldl
              (fun m jx => if bitOf row jx = 1 then
                m ^^^ stG.decom (2 * jx + bitOf gp.genInpMask jx) else m) 0)
            simpa using this) gp.pp.k_le_8K)
  · simp only [gen_next_gen_inp_com]
    by_cases hb : bitOf ((List.range n).foldl
        (fun m jx => if bitOf row jx = 1 then
          m ^^^ stG.decom (2 * jx + bitOf gp.genInpMask jx) else m) 0) 0 = 1
    · simp only [hb, if_true]
      rw [slice_app2_1 _ hwob]
      exact Nat.mod_eq_of_lt (lt_two_pow_of_lt_of_le
        (by have := hok 0 ((List.range n).foldl
              (fun m jx => if bitOf row jx = 1 then
                m ^^^ stG.decom (2 * jx + bitOf gp.genInpMask jx) else m) 0)
            simpa using this) gp.pp.k_le_8K)
    · simp only [hb, if_false]
      rw [slice_app2_1 _ hwob]
      exact Nat.mod_eq_of_lt (lt_two_pow_of_lt_of_le
        (by have := hok 1 ((List.range n).foldl
              (fun m jx => if bitOf row jx = 1 then
                m ^^^ stG.decom (2 * jx + bitOf gp.genInpMask jx) else m) 0)
            simpa using this) gp.pp.k_le_8K)
  · simp [evl_next_gen_inp_com]
  · simp [evl_next_gen_inp_com]
  · simp [evl_next_gen_inp_com]

/-- C9 at a concrete input: one row over one generator-input bit. -/
theorem C9_gen_inp_com_witness :
    (gen_next_gen_inp_com gpW 1 (gen_init gpW) 1 0).oBufr.len =
      (gen_init gpW).oBufr.len + 2 * gpW.pp.K ∧
    (evl_next_gen_inp_com epW 1 evlW 1 0).ix = evlW.ix + 2 * epW.pp.K :=
  ⟨(C9_gen_inp_com gpW epW (gen_init gpW) evlW 1 1 0 (by decide) (by decide)
      ByteStr.WF_empty).1,
    (C9_gen_inp_com gpW epW (gen_init gpW) evlW 1 1 0 (by decide) (by decide)
      ByteStr.WF_empty).2.2.2.2.1⟩

/-! ## The value written into the wire table -/

theorem gen_next_gate_w_idx (gp : GenPar) (st : GenSt) (g : Gate) :
    (gen_next_gate gp st g).w g.idx =
      if g.tag = GateTag.GEN_INP then gp.rand st.prngIx
      else if g.tag = GateTag.EVL_INP then gp.rand st.prngIx
      else if gp.pp.freeXor && is_xor g then
        (if g.inputs.length = 2 then
          st.w (g.inputs.getD 0 0) ^^^ st.w (g.inputs.getD 1 0)
        else st.w (g.inputs.getD 0 0))
      else if g.inputs.length = 2 then (genRows2 gp st g).zk
      else (genRows1 gp st g).zk := by
  unfold gen_next_gate
  by_cases h1 : g.tag = GateTag.GEN_INP
  · simp [h1]
  · by_cases h2 : g.tag = GateTag.EVL_INP
    · simp [h1, h2]
    · simp [h1, h2]
      split_ifs <;> rfl

theorem evl_next_gate_w_idx (ep : EvlPar) (st : EvlSt) (g : Gate) :
    (evl_next_gate ep st g).w g.idx =
      if g.tag = GateTag.GEN_INP then st.decom st.genInpIx % 2 ^ (8 * ep.pp.K)
      else if g.tag = GateTag.EVL_INP then
        ep.otKeys st.evlInpIx ^^^
          st.iBufr.slice (st.ix + bitOf ep.evlInp st.evlInpIx * ep.pp.K) ep.pp.K
      else if ep.pp.freeXor && is_xor g then
        (if g.inputs.length = 2 then
          st.w (g.inputs.getD 0 0) ^^^ st.w (g.inputs.getD 1 0)
        else st.w (g.inputs.getD 0 0))
      else if g.inputs.length = 2 then (evlRows2 ep st g).1
      else (evlRows1 ep st g).1 := by
  unfold evl_next_gate
  by_cases h1 : g.tag = GateTag.GEN_INP
  · simp [h1]
  · by_cases h2 : g.tag = GateTag.EVL_INP
    · simp [h1, h2]
    · simp only [h1, h2, if_false]
      split <;> (try split) <;> (try simp) <;> (try (split_ifs <;> rfl))

/-! ## Claim C7: labels stay `k`-bit -/

theorem ByteStr.slice_lt (s : ByteStr) (off n : Nat) :
    s.slice off n < 2 ^ (8 * n) :=
  Nat.mod_lt _ (Nat.pos_pow_of_pos _ (by decide))

theorem eight_K_eq (pp : PP) (h8 : 8 ∣ pp.k) : 8 * pp.K = pp.k := by
  obtain ⟨m, hm⟩ := h8
  have h7 : (7 + m * 8) / 8 = m := by
    rw [Nat.add_mul_div_right 7 m (by decide : 0 < 8)]
    norm_num
  have : pp.K = m := by
    simp only [PP.K, hm]
    rw [show 8 * m + 7 = 7 + m * 8 from by ring, h7]
  rw [this, hm]

theorem genRow0_fst_lt (gp : GenPar) (st : GenSt) (c0 b0 : Nat)
    (hc : c0 < 2 ^ gp.pp.k) (hR : st.R < 2 ^ gp.pp.k) :
    (genRow0 gp st c0 b0).1 < 2 ^ gp.pp.k := by
  unfold genRow0
  split
  · split
    · exact Nat.xor_lt_two_pow hc hR
    · exact hc
  · exact gp.rand_lt _

theorem genRows2_zk_lt (gp : GenPar) (st : GenSt) (g : Gate)
    (hR : st.R < 2 ^ gp.pp.k) : (genRows2 gp st g).zk < 2 ^ gp.pp.k := by
  unfold genRows2
  exact genRow0_fst_lt gp st _ _ (gp.pp.mask_lt _) hR

theorem genRows1_zk_lt (gp : GenPar) (st : GenSt) (g : Gate)
    (hR : st.R < 2 ^ gp.pp.k) : (genRows1 gp st g).zk < 2 ^ gp.pp.k := by
  unfold genRows1
  exact genRow0_fst_lt gp st _ _ (gp.pp.mask_lt _) hR

theorem evlRows2_key_lt (ep : EvlPar) (st : EvlSt) (g : Gate)
    (h8 : 8 ∣ ep.pp.k) : (evlRows2 ep st g).1 < 2 ^ ep.pp.k := by
  have hsl : ∀ off, st.iBufr.slice off ep.pp.K < 2 ^ ep.pp.k := fun off => by
    have := ByteStr.slice_lt st.iBufr off ep.pp.K
    rwa [eight_K_eq ep.pp h8] at this
  by_cases hgrr : ep.pp.grr = true
  · simp only [evlRows2, hgrr, if_true]
    split
    · exact ep.pp.mask_lt _
    · exact Nat.xor_lt_two_pow (ep.pp.mask_lt _) (hsl _)
  · simp only [evlRows2, hgrr, if_false]
    exact Nat.xor_lt_two_pow (hsl _) (ep.pp.mask_lt _)

theorem evlRows1_key_lt (ep : EvlPar) (st : EvlSt) (g : Gate)
    (h8 : 8 ∣ ep.pp.k) : (evlRows1 ep st g).1 < 2 ^ ep.pp.k := by
  have hsl : ∀ off, st.iBufr.slice off ep.pp.K < 2 ^ ep.pp.k := fun off => by
    have := ByteStr.slice_lt st.iBufr off ep.pp.K
    rwa [eight_K_eq ep.pp h8] at this
  by_cases hgrr : ep.pp.grr = true
  · simp only [evlRows1, hgrr, if_true]
    split
    · exact ep.pp.mask_lt _
    · exact Nat.xor_lt_two_pow (ep.pp.mask_lt _) (hsl _)
  · simp only [evlRows1, hgrr, if_false]
    exact Nat.xor_lt_two_pow (hsl _) (ep.pp.mask_lt _)

/-- C7: every label either kernel stores into the wire table is a `k`-bit
value (its high `128-k` bits are zero): fresh draws are `k` random bits,
KDF outputs are masked with `clear_mask` before use, and everything else is
an XOR of such values (on the evaluator side, of `K = k/8`-byte stream
slices). -/
theorem C7_label_masking (gp : GenPar) (ep : EvlPar) (stG : GenSt)
    (stE : EvlSt) (g : Gate)
    (hRG : stG.R < 2 ^ gp.pp.k)
    (hwG : ∀ i, stG.w i < 2 ^ gp.pp.k)
    (h8 : 8 ∣ ep.pp.k)
    (hotE : ∀ j, ep.otKeys j < 2 ^ ep.pp.k)
    (hwE : ∀ i, stE.w i < 2 ^ ep.pp.k) :
    (∀ i, (gen_next_gate gp stG g).w i < 2 ^ gp.pp.k) ∧
    (∀ i, (evl_next_gate ep stE g).w i < 2 ^ ep.pp.k) := by
  have h8K : 8 * ep.pp.K = ep.pp.k := eight_K_eq ep.pp h8
  constructor
  · intro i
    by_cases hi : i = g.idx
    · subst hi
      rw [gen_next_gate_w_idx]
      split
      · exact gp.rand_lt _
      · split
        · exact gp.rand_lt _
        · split
          · split
            · exact Nat.xor_lt_two_pow (hwG _) (hwG _)
            · exact hwG _
          · split
            · exact genRows2_zk_lt gp stG g hRG
            · exact genRows1_zk_lt gp stG g hRG
    · rw [gen_next_gate_w_frame gp stG g i hi]
      exact hwG i
  · intro i
    by_cases hi : i = g.idx
    · subst hi
      rw [evl_next_gate_w_idx]
      split
      · rw [h8K]
        exact Nat.mod_lt _ (Nat.pos_pow_of_pos _ (by decide))
      · split
        · refine Nat.xor_lt_two_pow (hotE _) ?_
          have := ByteStr.slice_lt stE.iBufr
            (stE.ix + bitOf ep.evlInp stE.evlInpIx * ep.pp.K) ep.pp.K
          rwa [h8K] at this
        · split
          · split
            · exact Nat.xor_lt_two_pow (hwE _) (hwE _)
            · exact hwE _
          · split
            · exact evlRows2_key_lt ep stE g h8
            · exact evlRows1_key_lt ep stE g h8
    · rw [evl_next_gate_w_frame ep stE g i hi]
      exact hwE i

/-- C7 at a concrete input: the AND output gate on the witness states. -/
theorem C7_label_masking_witness :
    (∀ i, (gen_next_gate gpW (gen_init gpW) ⟨GateTag.EVL_OUT, [0, 1], 8, 2⟩).w i <
      2 ^ gpW.pp.k) ∧
    (∀ i, (evl_next_gate epW evlW ⟨GateTag.EVL_OUT, [0, 1], 8, 2⟩).w i <
      2 ^ epW.pp.k) :=
  C7_label_masking gpW epW (gen_init gpW) evlW ⟨GateTag.EVL_OUT, [0, 1], 8, 2⟩
    (by decide)
    (fun i => by show (0:Nat) < 2 ^ 8; decide)
    (by decide)
    (fun j => by
      show (2 * j + bitOf 1 j + 1) % 256 < 2 ^ 8
      exact Nat.mod_lt _ (by decide))
    (fun i => by show (0:Nat) < 2 ^ 8; decide)

/-! ## Claim C8: the running hash absorbs the same bytes on both sides -/

theorem gen_next_gate_hashed (gp : GenPar) (st : GenSt) (g : Gate) :
    (gen_next_gate gp st g).hashed = st.hashed := by
  unfold gen_next_gate
  by_cases h1 : g.tag = GateTag.GEN_INP
  · simp [h1]
  · by_cases h2 : g.tag = GateTag.EVL_INP
    · simp [h1, h2]
    · simp [h1, h2]

theorem evl_next_gate_hashed (ep : EvlPar) (st : EvlSt) (g : Gate) :
    (evl_next_gate ep st g).hashed = update_hash st.hashed st.iBufr := by
  unfold evl_next_gate
  by_cases h1 : g.tag = GateTag.GEN_INP
  · simp [h1]
  · by_cases h2 : g.tag = GateTag.EVL_INP
    · simp [h1, h2]
    · simp only [h1, h2, if_false]
      split <;> (try split) <;> rfl

theorem honestRun_hashed (gp : GenPar) (ep : EvlPar) (s : GenSt × EvlSt)
    (gates : List Gate) (hh : s.1.hashed = s.2.hashed) :
    (honestRun gp ep s gates).1.hashed = (honestRun gp ep s gates).2.hashed := by
  induction gates generalizing s with
  | nil => exact hh
  | cons g gs ih =>
    show (honestRun gp ep (honestStep gp ep s g) gs).1.hashed = _
    apply ih
    show (com_next_gate gp s.1 g).hashed = (feedGate ep s.2 g _).hashed
    rw [show (com_next_gate gp s.1 g).hashed =
      update_hash (gen_next_gate gp s.1 g).hashed (gen_next_gate gp s.1 g).oBufr
      from rfl]
    rw [gen_next_gate_hashed, feedGate, evl_next_gate_hashed]
    rw [hh]

/-- C8: on every gate of an honest run the generator folds into the running
hash exactly the bytes it just emitted (`com_next_gate` absorbs the fresh
`out_buffer`), the evaluator folds exactly the gate's just-consumed
`in_buffer` (its cursor ends exactly at the chunk's length), and across the
whole run both parties absorb the identical byte sequence in identical
order. -/
theorem C8_hash_agreement (gp : GenPar) (ep : EvlPar) (d : Nat → Nat)
    (gates : List Gate)
    (hg : gp.pp.grr = true) (hf : gp.pp.freeXor = true)
    (hg' : ep.pp.grr = true) (hf' : ep.pp.freeXor = true)
    (hK : ep.pp.K = gp.pp.K) :
    (honestRun gp ep (gen_init gp, evl_init ep d) gates).1.hashed =
      (honestRun gp ep (gen_init gp, evl_init ep d) gates).2.hashed ∧
    (∀ stG g, (com_next_gate gp stG g).hashed =
      update_hash stG.hashed (gen_next_gate gp stG g).oBufr) ∧
    (∀ (stG : GenSt) (stE : EvlSt) (g : Gate), stG.oBufr = ByteStr.empty →
      (g.tag ≠ GateTag.GEN_INP → g.tag ≠ GateTag.EVL_INP →
        g.inputs.length = 1 ∨ g.inputs.length = 2) →
      (feedGate ep stE g (gen_next_gate gp stG g).oBufr).ix =
        (gen_next_gate gp stG g).oBufr.len ∧
      (feedGate ep stE g (gen_next_gate gp stG g).oBufr).hashed =
        update_hash stE.hashed (gen_next_gate gp stG g).oBufr) := by
  refine ⟨honestRun_hashed gp ep _ gates rfl, ?_, ?_⟩
  · intro stG g
    rw [show (com_next_gate gp stG g).hashed =
      update_hash (gen_next_gate gp stG g).hashed (gen_next_gate gp stG g).oBufr
      from rfl]
    rw [gen_next_gate_hashed]
  · intro stG stE g hob har
    constructor
    · rw [feedGate]
      rw [evl_next_gate_ix_adv ep _ g hg' hf' har]
      rw [gen_next_gate_oBufr_len gp stG g hg hf har, hob]
      simp [ByteStr.empty, hK]
    · rw [feedGate, evl_next_gate_hashed]

/-- C8 at a concrete input: the witness circuit's full honest run absorbs
identical byte streams on both sides. -/
theorem C8_hash_agreement_witness :
    (honestRun gpW epW (gen_init gpW,
        evl_init epW (fun m => (comRun gpW (gen_init gpW) gatesW).decom (2 * m)))
      gatesW).1.hashed =
      (honestRun gpW epW (gen_init gpW,
        evl_init epW (fun m => (comRun gpW (gen_init gpW) gatesW).decom (2 * m)))
      gatesW).2.hashed :=
  (C8_hash_agreement gpW epW
    (fun m => (comRun gpW (gen_init gpW) gatesW).decom (2 * m)) gatesW
    rfl rfl rfl rfl rfl).1

/-! ## Further structure lemmas feeding the correctness proof -/

theorem slice_single (K x : Nat) :
    (ByteStr.empty.append (ByteStr.ofKey K x)).slice 0 K = x % 2 ^ (8 * K) := by
  rw [ByteStr.empty_append, ByteStr.slice_zero]
  exact Nat.mod_mod_of_dvd _ dvd_rfl

theorem slice_two_0 (K x1 x2 : Nat) :
    ((ByteStr.empty.append (ByteStr.ofKey K x1)).append
      (ByteStr.ofKey K x2)).slice 0 K = x1 % 2 ^ (8 * K) := by
  rw [ByteStr.empty_append]
  rw [ByteStr.slice_append_left _ _ 0 K (by simp [ByteStr.len_ofKey])]
  rw [ByteStr.slice_zero]
  exact Nat.mod_mod_of_dvd _ dvd_rfl

theorem slice_two_1 (K x1 x2 : Nat) :
    ((ByteStr.empty.append (ByteStr.ofKey K x1)).append
      (ByteStr.ofKey K x2)).slice K K = x2 % 2 ^ (8 * K) := by
  rw [ByteStr.empty_append]
  have h := ByteStr.slice_append_right (ByteStr.ofKey K x1) (ByteStr.ofKey K x2)
    0 K (ByteStr.WF_ofKey K x1)
  have e : (ByteStr.ofKey K x1).len + 0 = K := by simp [ByteStr.len_ofKey]
  rw [e] at h
  rw [h, ByteStr.slice_zero]
  exact Nat.mod_mod_of_dvd _ dvd_rfl

theorem mul_R_mod_two (v R : Nat) (hv : v < 2) (hR : R % 2 = 1) :
    v * R % 2 = v := by
  have hv' : v = 0 ∨ v = 1 := by omega
  rcases hv' with h | h <;> subst h <;> simp [Nat.mul_mod, hR]

theorem two_bit_xor (a b c d : Nat) (ha : a < 2) (hb : b < 2) (hc : c < 2)
    (hd : d < 2) : (2 * a + b) ^^^ (2 * c + d) = 2 * (a ^^^ c) + (b ^^^ d) := by
  have ha' : a = 0 ∨ a = 1 := by omega
  have hb' : b = 0 ∨ b = 1 := by omega
  have hc' : c = 0 ∨ c = 1 := by omega
  have hd' : d = 0 ∨ d = 1 := by omega
  rcases ha' with h | h <;> subst h <;>
    rcases hb' with h | h <;> subst h <;>
    rcases hc' with h | h <;> subst h <;>
    rcases hd' with h | h <;> subst h <;> decide

theorem xor_left_comm (x y z : Nat) : x ^^^ (y ^^^ z) = y ^^^ (x ^^^ z) := by
  rw [← Nat.xor_assoc, Nat.xor_comm x y, Nat.xor_assoc]

theorem xor_mul_R (x y a b R : Nat) (ha : a < 2) (hb : b < 2) :
    (x ^^^ a * R) ^^^ (y ^^^ b * R) = (x ^^^ y) ^^^ (a ^^^ b) * R := by
  have ha' : a = 0 ∨ a = 1 := by omega
  have hb' : b = 0 ∨ b = 1 := by omega
  rcases ha' with h | h <;> subst h <;> rcases hb' with h | h <;> subst h <;>
    simp [Nat.xor_assoc, Nat.xor_comm, xor_left_comm, xor_left_cancel]

theorem genRows2_zk_grr (gp : GenPar) (st : GenSt) (g : Gate)
    (hg : gp.pp.grr = true) :
    (genRows2 gp st g).zk =
      (if g.tbl (2 * (st.w (g.inputs.getD 1 0) % 2) + st.w (g.inputs.getD 0 0) % 2) = 1
      then gp.pp.mask (gp.pp.kdf256 (bcast64 st.gateIx)
          (if st.w (g.inputs.getD 0 0) % 2 = 1 then st.w (g.inputs.getD 0 0) ^^^ st.R
            else st.w (g.inputs.getD 0 0))
          (if st.w (g.inputs.getD 1 0) % 2 = 1 then st.w (g.inputs.getD 1 0) ^^^ st.R
            else st.w (g.inputs.getD 1 0))) ^^^ st.R
      else gp.pp.mask (gp.pp.kdf256 (bcast64 st.gateIx)
          (if st.w (g.inputs.getD 0 0) % 2 = 1 then st.w (g.inputs.getD 0 0) ^^^ st.R
            else st.w (g.inputs.getD 0 0))
          (if st.w (g.inputs.getD 1 0) % 2 = 1 then st.w (g.inputs.getD 1 0) ^^^ st.R
            else st.w (g.inputs.getD 1 0)))) := by
  simp only [genRows2]
  rw [genRow0_fst_grr gp st _ _ hg]

theorem genRows1_zk_grr (gp : GenPar) (st : GenSt) (g : Gate)
    (hg : gp.pp.grr = true) :
    (genRows1 gp st g).zk =
      (if g.tbl (st.w (g.inputs.getD 0 0) % 2) = 1
      then gp.pp.mask (gp.pp.kdf128 (bcast64 st.gateIx)
          (if st.w (g.inputs.getD 0 0) % 2 = 1 then st.w (g.inputs.getD 0 0) ^^^ st.R
            else st.w (g.inputs.getD 0 0))) ^^^ st.R
      else gp.pp.mask (gp.pp.kdf128 (bcast64 st.gateIx)
          (if st.w (g.inputs.getD 0 0) % 2 = 1 then st.w (g.inputs.getD 0 0) ^^^ st.R
            else st.w (g.inputs.getD 0 0)))) := by
  simp only [genRows1]
  rw [genRow0_fst_grr gp st _ _ hg]

theorem genRows1_ob_grr_struct (gp : GenPar) (st : GenSt) (g : Gate)
    (hg : gp.pp.grr = true) :
    (genRows1 gp st g).ob =
      st.oBufr.append (ByteStr.ofKey gp.pp.K (gp.pp.mask (gp.pp.kdf128 (bcast64 st.gateIx) ((if st.w (g.inputs.getD 0 0) % 2 = 1 then st.w (g.inputs.getD 0 0) ^^^ st.R else st.w (g.inputs.getD 0 0)) ^^^ st.R)) ^^^ (if g.tbl (1 ^^^ st.w (g.inputs.getD 0 0) % 2) = 1 then (if g.tbl (st.w (g.inputs.getD 0 0) % 2) = 1 then gp.pp.mask (gp.pp.kdf128 (bcast64 st.gateIx) (if st.w (g.inputs.getD 0 0) % 2 = 1 then st.w (g.inputs.getD 0 0) ^^^ st.R else st.w (g.inputs.getD 0 0))) else gp.pp.mask (gp.pp.kdf128 (bcast64 st.gateIx) (if st.w (g.inputs.getD 0 0) % 2 = 1 then st.w (g.inputs.getD 0 0) ^^^ st.R else st.w (g.inputs.getD 0 0))) ^^^ st.R) else (if g.tbl (st.w (g.inputs.getD 0 0) % 2) = 1 then gp.pp.mask (gp.pp.kdf128 (bcast64 st.gateIx) (if st.w (g.inputs.getD 0 0) % 2 = 1 then st.w (g.inputs.getD 0 0) ^^^ st.R else st.w (g.inputs.getD 0 0))) ^^^ st.R else gp.pp.mask (gp.pp.kdf128 (bcast64 st.gateIx) (if st.w (g.inputs.getD 0 0) % 2 = 1 then st.w (g.inputs.getD 0 0) ^^^ st.R else st.w (g.inputs.getD 0 0))))))) := by
  simp only [genRows1]
  simp only [genRow0_ob_grr gp st _ _ hg, genRow0_fst_grr gp st _ _ hg,
    genRow0_snd_grr gp st _ _ hg]

theorem gen_next_gate_oBufr_rows1 (gp : GenPar) (st : GenSt) (g : Gate)
    (ht1 : g.tag ≠ GateTag.GEN_INP) (ht2 : g.tag ≠ GateTag.EVL_INP)
    (hx : is_xor g = false) (h2 : g.inputs.length ≠ 2) :
    (gen_next_gate gp st g).oBufr =
      if g.tag = GateTag.EVL_OUT || g.tag = GateTag.GEN_OUT then
        (genRows1 gp st g).ob.pushByte ((genRows1 gp st g).zk % 2)
      else (genRows1 gp st g).ob := by
  unfold gen_next_gate
  simp [ht1, ht2, hx, h2]

/-! ## Decrypting a garbled row recovers the active output label -/

theorem zb_vs_zk (c R b0 bL : Nat) (hb0 : b0 < 2) (hbL : bL < 2) :
    (if bL = 1 then (if b0 = 1 then c else c ^^^ R)
      else (if b0 = 1 then c ^^^ R else c)) =
      (if b0 = 1 then c ^^^ R else c) ^^^ bL * R := by
  have h0 : b0 = 0 ∨ b0 = 1 := by omega
  have hL : bL = 0 ∨ bL = 1 := by omega
  rcases h0 with h | h <;> subst h <;> rcases hL with h | h <;> subst h <;>
    simp [xor_xor_cancel]

theorem zk_xor_self_bit (c R b0 : Nat) (hb : b0 < 2) :
    c = (if b0 = 1 then c ^^^ R else c) ^^^ b0 * R := by
  have h : b0 = 0 ∨ b0 = 1 := by omega
  rcases h with h | h <;> subst h <;> simp [xor_xor_cancel]

theorem evlRows2_correct (gp : GenPar) (ep : EvlPar) (stG : GenSt) (stE : EvlSt)
    (g : Gate) (v0 v1 : Nat) (hv0 : v0 < 2) (hv1 : v1 < 2)
    (hpp : ep.pp = gp.pp) (hg : gp.pp.grr = true)
    (htw : stE.gateIx = stG.gateIx)
    (hA : stE.w (g.inputs.getD 0 0) = stG.w (g.inputs.getD 0 0) ^^^ v0 * stG.R)
    (hB : stE.w (g.inputs.getD 1 0) = stG.w (g.inputs.getD 1 0) ^^^ v1 * stG.R)
    (hR1 : stG.R % 2 = 1) (hix : stE.ix = 0)
    (hib1 : stE.iBufr.slice 0 gp.pp.K =
      rowCT gp.pp stG.R (bcast64 stG.gateIx) g.table
        (stG.w (g.inputs.getD 0 0)) (stG.w (g.inputs.getD 1 0)) 1)
    (hib2 : stE.iBufr.slice gp.pp.K gp.pp.K =
      rowCT gp.pp stG.R (bcast64 stG.gateIx) g.table
        (stG.w (g.inputs.getD 0 0)) (stG.w (g.inputs.getD 1 0)) 2)
    (hib3 : stE.iBufr.slice (2 * gp.pp.K) gp.pp.K =
      rowCT gp.pp stG.R (bcast64 stG.gateIx) g.table
        (stG.w (g.inputs.getD 0 0)) (stG.w (g.inputs.getD 1 0)) 3) :
    (evlRows2 ep stE g).1 =
      (genRows2 gp stG g).zk ^^^ g.tbl (2 * v1 + v0) * stG.R := by
  have hv0' : v0 = 0 ∨ v0 = 1 := by omega
  have hv1' : v1 = 0 ∨ v1 = 1 := by omega
  rw [genRows2_zk_grr gp stG g hg]
  simp only [List.getD_eq_getElem?_getD] at hA hB hib1 hib2 hib3 ⊢
  rcases hv0' with h0 | h0 <;> subst h0 <;>
    rcases hv1' with h1 | h1 <;> subst h1 <;>
    rcases Nat.mod_two_eq_zero_or_one (stG.w ((g.inputs[0]?).getD 0)) with hpx | hpx <;>
    rcases Nat.mod_two_eq_zero_or_one (stG.w ((g.inputs[1]?).getD 0)) with hpy | hpy <;>
    simp [Gate.tbl, evlRows2, hpp, hg, htw, hix, hA, hB, hpx, hpy, hR1,
      mod_two_xor, Nat.add_mod, hib1, hib2, hib3, rowCT_match_1, rowCT_match_2,
      rowCT_match_3, xor_xor_cancel, xor_left_cancel] <;>
    first
      | exact zb_vs_zk _ _ _ _ (bitOf_lt_two _ _) (bitOf_lt_two _ _)
      | exact zk_xor_self_bit _ _ _ (bitOf_lt_two _ _)

theorem evlRows1_correct (gp : GenPar) (ep : EvlPar) (stG : GenSt) (stE : EvlSt)
    (g : Gate) (v0 : Nat) (hv0 : v0 < 2)
    (hpp : ep.pp = gp.pp) (hg : gp.pp.grr = true)
    (htw : stE.gateIx = stG.gateIx)
    (hA : stE.w (g.inputs.getD 0 0) = stG.w (g.inputs.getD 0 0) ^^^ v0 * stG.R)
    (hR1 : stG.R % 2 = 1) (hix : stE.ix = 0)
    (hib : stE.iBufr.slice 0 gp.pp.K = gp.pp.mask (gp.pp.kdf128 (bcast64 stG.gateIx) ((if stG.w (g.inputs.getD 0 0) % 2 = 1 then stG.w (g.inputs.getD 0 0) ^^^ stG.R else stG.w (g.inputs.getD 0 0)) ^^^ stG.R)) ^^^ (if g.tbl (1 ^^^ stG.w (g.inputs.getD 0 0) % 2) = 1 then (if g.tbl (stG.w (g.inputs.getD 0 0) % 2) = 1 then gp.pp.mask (gp.pp.kdf128 (bcast64 stG.gateIx) (if stG.w (g.inputs.getD 0 0) % 2 = 1 then stG.w (g.inputs.getD 0 0) ^^^ stG.R else stG.w (g.inputs.getD 0 0))) else gp.pp.mask (gp.pp.kdf128 (bcast64 stG.gateIx) (if stG.w (g.inputs.getD 0 0) % 2 = 1 then stG.w (g.inputs.getD 0 0) ^^^ stG.R else stG.w (g.inputs.getD 0 0))) ^^^ stG.R) else (if g.tbl (stG.w (g.inputs.getD 0 0) % 2) = 1 then gp.pp.mask (gp.pp.kdf128 (bcast64 stG.gateIx) (if stG.w (g.inputs.getD 0 0) % 2 = 1 then stG.w (g.inputs.getD 0 0) ^^^ stG.R else stG.w (g.inputs.getD 0 0))) ^^^ stG.R else gp.pp.mask (gp.pp.kdf128 (bcast64 stG.gateIx) (if stG.w (g.inputs.getD 0 0) % 2 = 1 then stG.w (g.inputs.getD 0 0) ^^^ stG.R else stG.w (g.inputs.getD 0 0)))))) :
    (evlRows1 ep stE g).1 =
      (genRows1 gp stG g).zk ^^^ g.tbl v0 * stG.R := by
  have hv0' : v0 = 0 ∨ v0 = 1 := by omega
  rw [genRows1_zk_grr gp stG g hg]
  simp only [List.getD_eq_getElem?_getD] at hA hib ⊢
  rcases hv0' with h0 | h0 <;> subst h0 <;>
    rcases Nat.mod_two_eq_zero_or_one (stG.w ((g.inputs[0]?).getD 0)) with hpx | hpx <;>
    simp [Gate.tbl, evlRows1, hpp, hg, htw, hix, hA, hpx, hR1,
      mod_two_xor, Nat.add_mod, hib, xor_xor_cancel, xor_left_cancel] <;>
    first
      | exact zb_vs_zk _ _ _ _ (bitOf_lt_two _ _) (bitOf_lt_two _ _)
      | exact zk_xor_self_bit _ _ _ (bitOf_lt_two _ _)

/-! ## Plumbing for the per-gate honest step -/

theorem gen_next_gate_R (gp : GenPar) (st : GenSt) (g : Gate) :
    (gen_next_gate gp st g).R = st.R := by
  unfold gen_next_gate
  by_cases h1 : g.tag = GateTag.GEN_INP
  · simp [h1]
  · by_cases h2 : g.tag = GateTag.EVL_INP
    · simp [h1, h2]
    · simp [h1, h2]

theorem gen_next_gate_genInpIx_eq (gp : GenPar) (st : GenSt) (g : Gate) :
    (gen_next_gate gp st g).genInpIx =
      if g.tag = GateTag.GEN_INP then st.genInpIx + 1 else st.genInpIx := by
  unfold gen_next_gate
  by_cases h1 : g.tag = GateTag.GEN_INP
  · simp [h1]
  · by_cases h2 : g.tag = GateTag.EVL_INP
    · simp [h1, h2]
    · simp [h1, h2]

theorem gen_next_gate_evlInpIx_eq (gp : GenPar) (st : GenSt) (g : Gate) :
    (gen_next_gate gp st g).evlInpIx =
      if g.tag = GateTag.EVL_INP then st.evlInpIx + 1 else st.evlInpIx := by
  unfold gen_next_gate
  by_cases h1 : g.tag = GateTag.GEN_INP
  · simp [h1]
  · by_cases h2 : g.tag = GateTag.EVL_INP
    · simp [h1, h2]
    · simp [h1, h2]

theorem com_next_gate_R (gp : GenPar) (st : GenSt) (g : Gate) :
    (com_next_gate gp st g).R = st.R := gen_next_gate_R gp st g

theorem com_next_gate_gateIx (gp : GenPar) (st : GenSt) (g : Gate) :
    (com_next_gate gp st g).gateIx = st.gateIx + 1 := gen_next_gate_gateIx gp st g

theorem com_next_gate_w (gp : GenPar) (st : GenSt) (g : Gate) :
    (com_next_gate gp st g).w = (gen_next_gate gp st g).w := rfl

theorem com_next_gate_oBufr (gp : GenPar) (st : GenSt) (g : Gate) :
    (com_next_gate gp st g).oBufr = ByteStr.empty := rfl

theorem com_next_gate_genInpIx_eq (gp : GenPar) (st : GenSt) (g : Gate) :
    (com_next_gate gp st g).genInpIx =
      if g.tag = GateTag.GEN_INP then st.genInpIx + 1 else st.genInpIx :=
  gen_next_gate_genInpIx_eq gp st g

theorem com_next_gate_evlInpIx_eq (gp : GenPar) (st : GenSt) (g : Gate) :
    (com_next_gate gp st g).evlInpIx =
      if g.tag = GateTag.EVL_INP then st.evlInpIx + 1 else st.evlInpIx :=
  gen_next_gate_evlInpIx_eq gp st g

theorem out_bit_eq (zk v R : Nat) (hv : v < 2) (hR1 : R % 2 = 1) :
    (zk ^^^ v * R) % 2 ^^^ zk % 2 = v := by
  have hv' : v = 0 ∨ v = 1 := by omega
  rcases hv' with h | h <;> subst h <;>
    rcases Nat.mod_two_eq_zero_or_one zk with hz | hz <;>
    simp [mod_two_xor, hz, hR1, Nat.add_mod]

theorem genRows2_ob_WF (gp : GenPar) (st : GenSt) (g : Gate)
    (hg : gp.pp.grr = true) (hob : st.oBufr.WF) : (genRows2 gp st g).ob.WF := by
  rw [genRows2_ob_grr_struct gp st g hg]
  exact ByteStr.WF_append (ByteStr.WF_append (ByteStr.WF_append hob
    (ByteStr.WF_ofKey _ _)) (ByteStr.WF_ofKey _ _)) (ByteStr.WF_ofKey _ _)

theorem genRows1_ob_WF (gp : GenPar) (st : GenSt) (g : Gate)
    (hg : gp.pp.grr = true) (hob : st.oBufr.WF) : (genRows1 gp st g).ob.WF := by
  rw [genRows1_ob_grr_struct gp st g hg]
  exact ByteStr.WF_append hob (ByteStr.WF_ofKey _ _)

theorem gen_chunk_tag2 (gp : GenPar) (st : GenSt) (g : Gate)
    (hg : gp.pp.grr = true) (hx : is_xor g = false) (h2 : g.inputs.length = 2)
    (ht1 : g.tag ≠ GateTag.GEN_INP) (ht2 : g.tag ≠ GateTag.EVL_INP)
    (hout : (g.tag = GateTag.EVL_OUT || g.tag = GateTag.GEN_OUT) = true)
    (hob : st.oBufr = ByteStr.empty) :
    (gen_next_gate gp st g).oBufr.slice (3 * gp.pp.K) 1 =
      (genRows2 gp st g).zk % 2 := by
  rw [gen_next_gate_oBufr_rows2 gp st g ht1 ht2 hx h2, if_pos hout]
  have hwf : (genRows2 gp st g).ob.WF :=
    genRows2_ob_WF gp st g hg (by rw [hob]; exact ByteStr.WF_empty)
  have hlen : (genRows2 gp st g).ob.len = 3 * gp.pp.K := by
    rw [genRows2_ob_len gp st g hg, hob]
    simp [ByteStr.empty]
  have h := ByteStr.slice_append_end (genRows2 gp st g).ob
    ⟨(genRows2 gp st g).zk % 2 % 256, 1⟩ hwf
    (by show (genRows2 gp st g).zk % 2 % 256 < 2 ^ (8 * 1); omega)
  rw [hlen] at h
  show ((genRows2 gp st g).ob.append ⟨(genRows2 gp st g).zk % 2 % 256, 1⟩).slice
    (3 * gp.pp.K) 1 = _
  rw [h]
  have : (genRows2 gp st g).zk % 2 < 256 := by omega
  rw [Nat.mod_eq_of_lt this]

theorem gen_chunk_tag1 (gp : GenPar) (st : GenSt) (g : Gate)
    (hg : gp.pp.grr = true) (hx : is_xor g = false) (h2 : g.inputs.length ≠ 2)
    (ht1 : g.tag ≠ GateTag.GEN_INP) (ht2 : g.tag ≠ GateTag.EVL_INP)
    (hout : (g.tag = GateTag.EVL_OUT || g.tag = GateTag.GEN_OUT) = true)
    (hob : st.oBufr = ByteStr.empty) :
    (gen_next_gate gp st g).oBufr.slice gp.pp.K 1 =
      (genRows1 gp st g).zk % 2 := by
  rw [gen_next_gate_oBufr_rows1 gp st g ht1 ht2 hx h2, if_pos hout]
  have hwf : (genRows1 gp st g).ob.WF :=
    genRows1_ob_WF gp st g hg (by rw [hob]; exact ByteStr.WF_empty)
  have hlen : (genRows1 gp st g).ob.len = gp.pp.K := by
    rw [genRows1_ob_len gp st g hg, hob]
    simp [ByteStr.empty]
  have h := ByteStr.slice_append_end (genRows1 gp st g).ob
    ⟨(genRows1 gp st g).zk % 2 % 256, 1⟩ hwf
    (by show (genRows1 gp st g).zk % 2 % 256 < 2 ^ (8 * 1); omega)
  rw [hlen] at h
  show ((genRows1 gp st g).ob.append ⟨(genRows1 gp st g).zk % 2 % 256, 1⟩).slice
    gp.pp.K 1 = _
  rw [h]
  have : (genRows1 gp st g).zk % 2 < 256 := by omega
  rw [Nat.mod_eq_of_lt this]

theorem gen_next_gate_oBufr_free (gp : GenPar) (st : GenSt) (g : Gate)
    (ht1 : g.tag ≠ GateTag.GEN_INP) (ht2 : g.tag ≠ GateTag.EVL_INP)
    (hf : gp.pp.freeXor = true) (hx : is_xor g = true) :
    (gen_next_gate gp st g).oBufr =
      if g.tag = GateTag.EVL_OUT || g.tag = GateTag.GEN_OUT then
        st.oBufr.pushByte
          ((if g.inputs.length = 2 then
            st.w (g.inputs.getD 0 0) ^^^ st.w (g.inputs.getD 1 0)
          else st.w (g.inputs.getD 0 0)) % 2)
      else st.oBufr := by
  unfold gen_next_gate
  simp [ht1, ht2, hf, hx]

theorem gen_chunk_tag_free (gp : GenPar) (st : GenSt) (g : Gate)
    (ht1 : g.tag ≠ GateTag.GEN_INP) (ht2 : g.tag ≠ GateTag.EVL_INP)
    (hf : gp.pp.freeXor = true) (hx : is_xor g = true)
    (hout : (g.tag = GateTag.EVL_OUT || g.tag = GateTag.GEN_OUT) = true)
    (hob : st.oBufr = ByteStr.empty) :
    (gen_next_gate gp st g).oBufr.slice 0 1 =
      (if g.inputs.length = 2 then
        st.w (g.inputs.getD 0 0) ^^^ st.w (g.inputs.getD 1 0)
      else st.w (g.inputs.getD 0 0)) % 2 := by
  rw [gen_next_gate_oBufr_free gp st g ht1 ht2 hf hx, if_pos hout, hob]
  show (ByteStr.empty.append _).slice 0 1 = _
  rw [ByteStr.empty_append, ByteStr.slice_zero]
  have : (if g.inputs.length = 2 then
      st.w (g.inputs.getD 0 0) ^^^ st.w (g.inputs.getD 1 0)
    else st.w (g.inputs.getD 0 0)) % 2 % 256 <
      2 ^ (8 * 1) := by omega
  rw [Nat.mod_eq_of_lt this]
  have h2 : (if g.inputs.length = 2 then
      st.w (g.inputs.getD 0 0) ^^^ st.w (g.inputs.getD 1 0)
    else st.w (g.inputs.getD 0 0)) % 2 < 256 := by omega
  rw [Nat.mod_eq_of_lt h2]

theorem gen_next_gate_oBufr_evlInp (gp : GenPar) (st : GenSt) (g : Gate)
    (ht : g.tag = GateTag.EVL_INP) :
    (gen_next_gate gp st g).oBufr =
      (st.oBufr.append (ByteStr.ofKey gp.pp.K
        (gp.otKeys (2 * st.evlInpIx) ^^^ gp.rand st.prngIx))).append
        (ByteStr.ofKey gp.pp.K
          (gp.otKeys (2 * st.evlInpIx + 1) ^^^ (gp.rand st.prngIx ^^^ st.R))) := by
  unfold gen_next_gate
  simp [ht]

theorem evl_next_gate_genInpIx_eq (ep : EvlPar) (st : EvlSt) (g : Gate) :
    (evl_next_gate ep st g).genInpIx =
      if g.tag = GateTag.GEN_INP then st.genInpIx + 1 else st.genInpIx := by
  unfold evl_next_gate
  by_cases h1 : g.tag = GateTag.GEN_INP
  · simp [h1]
  · by_cases h2 : g.tag = GateTag.EVL_INP
    · simp [h1, h2]
    · simp only [h1, h2, if_false]
      split <;> (try split) <;> simp [h1]

theorem evl_next_gate_evlInpIx_eq (ep : EvlPar) (st : EvlSt) (g : Gate) :
    (evl_next_gate ep st g).evlInpIx =
      if g.tag = GateTag.EVL_INP then st.evlInpIx + 1 else st.evlInpIx := by
  unfold evl_next_gate
  by_cases h1 : g.tag = GateTag.GEN_INP
  · simp [h1]
  · by_cases h2 : g.tag = GateTag.EVL_INP
    · simp [h1, h2]
    · simp only [h1, h2, if_false]
      split <;> (try split) <;> simp [h2]

theorem evl_next_gate_evlOutIx_eq (ep : EvlPar) (st : EvlSt) (g : Gate) :
    (evl_next_gate ep st g).evlOutIx =
      if g.tag = GateTag.EVL_OUT then st.evlOutIx + 1 else st.evlOutIx := by
  unfold evl_next_gate
  by_cases h1 : g.tag = GateTag.GEN_INP
  · simp [h1]
  · by_cases h2 : g.tag = GateTag.EVL_INP
    · simp [h1, h2]
    · by_cases h3 : g.tag = GateTag.EVL_OUT
      · simp [h1, h2, h3]
      · by_cases h4 : g.tag = GateTag.GEN_OUT
        · simp [h1, h2, h3, h4]
        · simp [h1, h2, h3, h4]

theorem evl_next_gate_genOutIx_eq (ep : EvlPar) (st : EvlSt) (g : Gate) :
    (evl_next_gate ep st g).genOutIx =
      if g.tag = GateTag.GEN_OUT then st.genOutIx + 1 else st.genOutIx := by
  unfold evl_next_gate
  by_cases h1 : g.tag = GateTag.GEN_INP
  · simp [h1]
  · by_cases h2 : g.tag = GateTag.EVL_INP
    · simp [h1, h2]
    · by_cases h3 : g.tag = GateTag.EVL_OUT
      · simp [h1, h2, h3]
      · by_cases h4 : g.tag = GateTag.GEN_OUT
        · simp [h1, h2, h3, h4]
        · simp [h1, h2, h3, h4]

theorem evl_next_gate_evlOut_noout (ep : EvlPar) (st : EvlSt) (g : Gate)
    (ht : g.tag ≠ GateTag.EVL_OUT) :
    (evl_next_gate ep st g).evlOut = st.evlOut := by
  unfold evl_next_gate
  by_cases h1 : g.tag = GateTag.GEN_INP
  · simp [h1]
  · by_cases h2 : g.tag = GateTag.EVL_INP
    · simp [h1, h2]
    · by_cases h4 : g.tag = GateTag.GEN_OUT
      · simp [h1, h2, ht, h4]
      · simp [h1, h2, ht, h4]

theorem evl_next_gate_genOut_noout (ep : EvlPar) (st : EvlSt) (g : Gate)
    (ht : g.tag ≠ GateTag.GEN_OUT) :
    (evl_next_gate ep st g).genOut = st.genOut := by
  unfold evl_next_gate
  by_cases h1 : g.tag = GateTag.GEN_INP
  · simp [h1]
  · by_cases h2 : g.tag = GateTag.EVL_INP
    · simp [h1, h2]
    · by_cases h3 : g.tag = GateTag.EVL_OUT
      · simp [h1, h2, h3]
      · simp [h1, h2, h3, ht]

theorem evl_next_gate_out_evl (ep : EvlPar) (st : EvlSt) (g : Gate)
    (ht : g.tag = GateTag.EVL_OUT) :
    (evl_next_gate ep st g).evlOut =
      setIthBit st.evlOut st.evlOutIx
        ((if ep.pp.freeXor && is_xor g then
            (if g.inputs.length = 2 then
              st.w (g.inputs.getD 0 0) ^^^ st.w (g.inputs.getD 1 0)
            else st.w (g.inputs.getD 0 0))
          else if g.inputs.length = 2 then (evlRows2 ep st g).1
          else (evlRows1 ep st g).1) % 2 ^^^
          st.iBufr.slice
            (if ep.pp.freeXor && is_xor g then st.ix
             else if g.inputs.length = 2 then (evlRows2 ep st g).2
             else (evlRows1 ep st g).2) 1) := by
  unfold evl_next_gate
  simp only [ht, reduceCtorEq, eq_self_iff_true, if_false, if_true]
  split <;> (try split) <;> simp

theorem evl_next_gate_out_gen (ep : EvlPar) (st : EvlSt) (g : Gate)
    (ht : g.tag = GateTag.GEN_OUT) :
    (evl_next_gate ep st g).genOut =
      setIthBit st.genOut st.genOutIx
        ((if ep.pp.freeXor && is_xor g then
            (if g.inputs.length = 2 then
              st.w (g.inputs.getD 0 0) ^^^ st.w (g.inputs.getD 1 0)
            else st.w (g.inputs.getD 0 0))
          else if g.inputs.length = 2 then (evlRows2 ep st g).1
          else (evlRows1 ep st g).1) % 2 ^^^
          st.iBufr.slice
            (if ep.pp.freeXor && is_xor g then st.ix
             else if g.inputs.length = 2 then (evlRows2 ep st g).2
             else (evlRows1 ep st g).2) 1) := by
  unfold evl_next_gate
  simp only [ht, reduceCtorEq, eq_self_iff_true, if_false, if_true]
  split <;> (try split) <;> simp

theorem specNextGate_genInpIx_eq (gi ei : Nat) (s : SpecSt) (g : Gate) :
    (specNextGate gi ei s g).genInpIx =
      if g.tag = GateTag.GEN_INP then s.genInpIx + 1 else s.genInpIx := by
  unfold specNextGate
  by_cases h1 : g.tag = GateTag.GEN_INP
  · simp [h1]
  · by_cases h2 : g.tag = GateTag.EVL_INP
    · simp [h1, h2]
    · simp only [h1, h2, if_false]
      split_ifs <;> rfl

theorem specNextGate_evlInpIx_eq (gi ei : Nat) (s : SpecSt) (g : Gate) :
    (specNextGate gi ei s g).evlInpIx =
      if g.tag = GateTag.EVL_INP then s.evlInpIx + 1 else s.evlInpIx := by
  unfold specNextGate
  by_cases h1 : g.tag = GateTag.GEN_INP
  · simp [h1]
  · by_cases h2 : g.tag = GateTag.EVL_INP
    · simp [h1, h2]
    · simp only [h1, h2, if_false]
      split_ifs <;> rfl

theorem specNextGate_evlOutIx_eq (gi ei : Nat) (s : SpecSt) (g : Gate) :
    (specNextGate gi ei s g).evlOutIx =
      if g.tag = GateTag.EVL_OUT then s.evlOutIx + 1 else s.evlOutIx := by
  unfold specNextGate
  by_cases h1 : g.tag = GateTag.GEN_INP
  · simp [h1]
  · by_cases h2 : g.tag = GateTag.EVL_INP
    · simp [h1, h2]
    · simp only [h1, h2, if_false]
      split_ifs <;> rfl

theorem specNextGate_genOutIx_eq (gi ei : Nat) (s : SpecSt) (g : Gate) :
    (specNextGate gi ei s g).genOutIx =
      if g.tag = GateTag.GEN_OUT then s.genOutIx + 1 else s.genOutIx := by
  unfold specNextGate
  by_cases h1 : g.tag = GateTag.GEN_INP
  · simp [h1]
  · by_cases h2 : g.tag = GateTag.EVL_INP
    · simp [h1, h2]
    · by_cases h3 : g.tag = GateTag.EVL_OUT
      · simp [h1, h2, h3]
      · by_cases h4 : g.tag = GateTag.GEN_OUT
        · simp [h1, h2, h3, h4]
        · simp [h1, h2, h3, h4]

theorem specNextGate_evlOutBits_noout (gi ei : Nat) (s : SpecSt) (g : Gate)
    (ht : g.tag ≠ GateTag.EVL_OUT) :
    (specNextGate gi ei s g).evlOutBits = s.evlOutBits := by
  unfold specNextGate
  by_cases h1 : g.tag = GateTag.GEN_INP
  · simp [h1]
  · by_cases h2 : g.tag = GateTag.EVL_INP
    · simp [h1, h2]
    · simp only [h1, h2, if_false]
      rw [if_neg ht]
      split_ifs <;> rfl

theorem specNextGate_genOutBits_noout (gi ei : Nat) (s : SpecSt) (g : Gate)
    (ht : g.tag ≠ GateTag.GEN_OUT) :
    (specNextGate gi ei s g).genOutBits = s.genOutBits := by
  unfold specNextGate
  by_cases h1 : g.tag = GateTag.GEN_INP
  · simp [h1]
  · by_cases h2 : g.tag = GateTag.EVL_INP
    · simp [h1, h2]
    · by_cases h3 : g.tag = GateTag.EVL_OUT
      · simp [h1, h2, h3]
      · simp [h1, h2, h3, ht]

theorem specNextGate_evlOutBits_out (gi ei : Nat) (s : SpecSt) (g : Gate)
    (ht : g.tag = GateTag.EVL_OUT) :
    (specNextGate gi ei s g).evlOutBits =
      setIthBit s.evlOutBits s.evlOutIx
        (if g.inputs.length = 2 then
          g.tbl (2 * s.val (g.inputs.getD 1 0) + s.val (g.inputs.getD 0 0))
        else g.tbl (s.val (g.inputs.getD 0 0))) := by
  unfold specNextGate
  simp [ht]

theorem specNextGate_genOutBits_out (gi ei : Nat) (s : SpecSt) (g : Gate)
    (ht : g.tag = GateTag.GEN_OUT) :
    (specNextGate gi ei s g).genOutBits =
      setIthBit s.genOutBits s.genOutIx
        (if g.inputs.length = 2 then
          g.tbl (2 * s.val (g.inputs.getD 1 0) + s.val (g.inputs.getD 0 0))
        else g.tbl (s.val (g.inputs.getD 0 0))) := by
  unfold specNextGate
  simp [ht]

theorem specNextGate_val_frame (gi ei : Nat) (s : SpecSt) (g : Gate) (j : Nat)
    (hj : j ≠ g.idx) : (specNextGate gi ei s g).val j = s.val j := by
  unfold specNextGate
  by_cases h1 : g.tag = GateTag.GEN_INP
  · simp [h1, hj]
  · by_cases h2 : g.tag = GateTag.EVL_INP
    · simp [h1, h2, hj]
    · simp only [h1, h2, if_false]
      split_ifs <;> simp [hj]

theorem specNextGate_val_idx_internal (gi ei : Nat) (s : SpecSt) (g : Gate)
    (ht1 : g.tag ≠ GateTag.GEN_INP) (ht2 : g.tag ≠ GateTag.EVL_INP) :
    (specNextGate gi ei s g).val g.idx =
      (if g.inputs.length = 2 then
        g.tbl (2 * s.val (g.inputs.getD 1 0) + s.val (g.inputs.getD 0 0))
      else g.tbl (s.val (g.inputs.getD 0 0))) := by
  unfold specNextGate
  simp only [ht1, ht2, if_false]
  split_ifs <;> simp

theorem gen_chunk_slice1 (gp : GenPar) (st : GenSt) (g : Gate)
    (hg : gp.pp.grr = true) (hx : is_xor g = false) (h2 : g.inputs.length ≠ 2)
    (ht1 : g.tag ≠ GateTag.GEN_INP) (ht2 : g.tag ≠ GateTag.EVL_INP)
    (hob : st.oBufr = ByteStr.empty) (hR : st.R < 2 ^ gp.pp.k) :
    (gen_next_gate gp st g).oBufr.slice 0 gp.pp.K = gp.pp.mask (gp.pp.kdf128 (bcast64 st.gateIx) ((if st.w (g.inputs.getD 0 0) % 2 = 1 then st.w (g.inputs.getD 0 0) ^^^ st.R else st.w (g.inputs.getD 0 0)) ^^^ st.R)) ^^^ (if g.tbl (1 ^^^ st.w (g.inputs.getD 0 0) % 2) = 1 then (if g.tbl (st.w (g.inputs.getD 0 0) % 2) = 1 then gp.pp.mask (gp.pp.kdf128 (bcast64 st.gateIx) (if st.w (g.inputs.getD 0 0) % 2 = 1 then st.w (g.inputs.getD 0 0) ^^^ st.R else st.w (g.inputs.getD 0 0))) else gp.pp.mask (gp.pp.kdf128 (bcast64 st.gateIx) (if st.w (g.inputs.getD 0 0) % 2 = 1 then st.w (g.inputs.getD 0 0) ^^^ st.R else st.w (g.inputs.getD 0 0))) ^^^ st.R) else (if g.tbl (st.w (g.inputs.getD 0 0) % 2) = 1 then gp.pp.mask (gp.pp.kdf128 (bcast64 st.gateIx) (if st.w (g.inputs.getD 0 0) % 2 = 1 then st.w (g.inputs.getD 0 0) ^^^ st.R else st.w (g.inputs.getD 0 0))) ^^^ st.R else gp.pp.mask (gp.pp.kdf128 (bcast64 st.gateIx) (if st.w (g.inputs.getD 0 0) % 2 = 1 then st.w (g.inputs.getD 0 0) ^^^ st.R else st.w (g.inputs.getD 0 0))))) := by
  have hlt : gp.pp.mask (gp.pp.kdf128 (bcast64 st.gateIx) ((if st.w (g.inputs.getD 0 0) % 2 = 1 then st.w (g.inputs.getD 0 0) ^^^ st.R else st.w (g.inputs.getD 0 0)) ^^^ st.R)) ^^^ (if g.tbl (1 ^^^ st.w (g.inputs.getD 0 0) % 2) = 1 then (if g.tbl (st.w (g.inputs.getD 0 0) % 2) = 1 then gp.pp.mask (gp.pp.kdf128 (bcast64 st.gateIx) (if st.w (g.inputs.getD 0 0) % 2 = 1 then st.w (g.inputs.getD 0 0) ^^^ st.R else st.w (g.inputs.getD 0 0))) else gp.pp.mask (gp.pp.kdf128 (bcast64 st.gateIx) (if st.w (g.inputs.getD 0 0) % 2 = 1 then st.w (g.inputs.getD 0 0) ^^^ st.R else st.w (g.inputs.getD 0 0))) ^^^ st.R) else (if g.tbl (st.w (g.inputs.getD 0 0) % 2) = 1 then gp.pp.mask (gp.pp.kdf128 (bcast64 st.gateIx) (if st.w (g.inputs.getD 0 0) % 2 = 1 then st.w (g.inputs.getD 0 0) ^^^ st.R else st.w (g.inputs.getD 0 0))) ^^^ st.R else gp.pp.mask (gp.pp.kdf128 (bcast64 st.gateIx) (if st.w (g.inputs.getD 0 0) % 2 = 1 then st.w (g.inputs.getD 0 0) ^^^ st.R else st.w (g.inputs.getD 0 0))))) < 2 ^ gp.pp.k := by
    refine Nat.xor_lt_two_pow (gp.pp.mask_lt _) ?_
    split_ifs <;>
      first
        | exact gp.pp.mask_lt _
        | exact Nat.xor_lt_two_pow (gp.pp.mask_lt _) hR
  have hlen : (genRows1 gp st g).ob.len = gp.pp.K := by
    rw [genRows1_ob_len gp st g hg, hob]
    simp [ByteStr.empty]
  have hchunk : (gen_next_gate gp st g).oBufr.slice 0 gp.pp.K =
      (genRows1 gp st g).ob.slice 0 gp.pp.K := by
    rw [gen_next_gate_oBufr_rows1 gp st g ht1 ht2 hx h2]
    by_cases ho : (g.tag = GateTag.EVL_OUT || g.tag = GateTag.GEN_OUT) = true
    · rw [if_pos ho]
      exact ByteStr.slice_append_left _ _ 0 gp.pp.K (by rw [hlen]; omega)
    · rw [if_neg ho]
  rw [hchunk, genRows1_ob_grr_struct gp st g hg, hob, slice_single]
  exact Nat.mod_eq_of_lt (lt_two_pow_of_lt_of_le hlt gp.pp.k_le_8K)

theorem gen_chunk_evlInp_0 (gp : GenPar) (st : GenSt) (g : Gate)
    (ht : g.tag = GateTag.EVL_INP) (hob : st.oBufr = ByteStr.empty)
    (hk0 : gp.otKeys (2 * st.evlInpIx) < 2 ^ gp.pp.k) :
    (gen_next_gate gp st g).oBufr.slice 0 gp.pp.K =
      gp.otKeys (2 * st.evlInpIx) ^^^ gp.rand st.prngIx := by
  rw [gen_next_gate_oBufr_evlInp gp st g ht, hob, slice_two_0]
  exact Nat.mod_eq_of_lt (lt_two_pow_of_lt_of_le
    (Nat.xor_lt_two_pow hk0 (gp.rand_lt st.prngIx)) gp.pp.k_le_8K)

theorem gen_chunk_evlInp_1 (gp : GenPar) (st : GenSt) (g : Gate)
    (ht : g.tag = GateTag.EVL_INP) (hob : st.oBufr = ByteStr.empty)
    (hk1 : gp.otKeys (2 * st.evlInpIx + 1) < 2 ^ gp.pp.k)
    (hR : st.R < 2 ^ gp.pp.k) :
    (gen_next_gate gp st g).oBufr.slice gp.pp.K gp.pp.K =
      gp.otKeys (2 * st.evlInpIx + 1) ^^^ (gp.rand st.prngIx ^^^ st.R) := by
  rw [gen_next_gate_oBufr_evlInp gp st g ht, hob, slice_two_1]
  exact Nat.mod_eq_of_lt (lt_two_pow_of_lt_of_le
    (Nat.xor_lt_two_pow hk1 (Nat.xor_lt_two_pow (gp.rand_lt st.prngIx) hR))
    gp.pp.k_le_8K)

theorem gateOK_nonInput (n : Nat) (g : Gate) (h : gateOK n g = true)
    (ht1 : g.tag ≠ GateTag.GEN_INP) (ht2 : g.tag ≠ GateTag.EVL_INP) :
    g.idx = n ∧ (g.inputs.length = 2 ∨ (g.inputs.length = 1 ∧ g.table ≠ 1)) ∧
      ∀ x ∈ g.inputs, x < n := by
  unfold gateOK at h
  cases htg : g.tag
  case GEN_INP => exact absurd htg ht1
  case EVL_INP => exact absurd htg ht2
  all_goals (rw [htg] at h; simp at h; exact ⟨h.1, h.2.1, h.2.2⟩)

theorem getD_lt_of_all (l : List Nat) (n j : Nat) (h : ∀ x ∈ l, x < n)
    (hj : j < l.length) : l.getD j 0 < n := by
  have he : l.getD j 0 = l[j] := by
    rw [List.getD_eq_getElem?_getD, List.getElem?_eq_getElem hj]
    rfl
  rw [he]
  exact h _ (List.getElem_mem hj)

/-- The honest-execution invariant survives a `GEN_INP` gate: the generator
draws the label pair and commits, the evaluator truncates the matching
decommitment to recover the active label, the reference semantics latches the
masked generator-input bit. -/
theorem stepInv_genInp (gp : GenPar) (ep : EvlPar) (R : Nat)
    (G : GenSt) (E : EvlSt) (S : SpecSt) (g : Gate)
    (hpp : ep.pp = gp.pp)
    (hR1 : R % 2 = 1) (hRk : R < 2 ^ gp.pp.k)
    (htag : g.tag = GateTag.GEN_INP)
    (hidx : g.idx = G.gateIx)
    (hInv : HonestInv gp.pp.k R G E S)
    (hdec : E.decom G.genInpIx = (gen_next_gate gp G g).decom (2 * G.genInpIx)) :
    HonestInv gp.pp.k R (com_next_gate gp G g)
      (feedGate ep E g (gen_next_gate gp G g).oBufr)
      (specNextGate gp.genInpMask ep.evlInp S g) := by
  obtain ⟨hGR, hEgi, hEgin, hSgin, hEein, hSein, hEeoi, hEgoi, hGob, hEeo, hEgo,
    hlab⟩ := hInv
  have ht2 : g.tag ≠ GateTag.EVL_INP := by simp [htag]
  have ht3 : g.tag ≠ GateTag.EVL_OUT := by simp [htag]
  have ht4 : g.tag ≠ GateTag.GEN_OUT := by simp [htag]
  have hd0 : (gen_next_gate gp G g).decom (2 * G.genInpIx) =
      (if bitOf gp.genInpMask G.genInpIx = 1 then gp.rand G.prngIx ^^^ G.R
        else gp.rand G.prngIx) % 2 ^ (8 * gp.pp.K) +
        gp.rand (G.prngIx + 1) * 2 ^ (8 * gp.pp.K) := by
    unfold gen_next_gate
    simp [htag]
  have hsel : (if bitOf gp.genInpMask G.genInpIx = 1 then gp.rand G.prngIx ^^^ G.R
      else gp.rand G.prngIx) < 2 ^ gp.pp.k := by
    split_ifs
    · exact Nat.xor_lt_two_pow (gp.rand_lt _) (hGR ▸ hRk)
    · exact gp.rand_lt _
  have hck : E.decom G.genInpIx % 2 ^ (8 * gp.pp.K) =
      gp.rand G.prngIx ^^^ bitOf gp.genInpMask G.genInpIx * R := by
    rw [hdec, hd0, Nat.add_mul_mod_self_right, Nat.mod_mod_of_dvd _ dvd_rfl,
      Nat.mod_eq_of_lt (lt_two_pow_of_lt_of_le hsel gp.pp.k_le_8K)]
    have hb : bitOf gp.genInpMask G.genInpIx = 0 ∨
        bitOf gp.genInpMask G.genInpIx = 1 := by
      have := bitOf_lt_two gp.genInpMask G.genInpIx
      omega
    rcases hb with hb | hb <;> simp [hb, hGR]
  simp only [feedGate]
  refine ⟨?_, ?_, ?_, ?_, ?_, ?_, ?_, ?_, ?_, ?_, ?_, ?_⟩
  · rw [com_next_gate_R]
    exact hGR
  · rw [evl_next_gate_gateIx, com_next_gate_gateIx]
    simp [hEgi]
  · rw [evl_next_gate_genInpIx_eq, com_next_gate_genInpIx_eq]
    simp [htag, hEgin]
  · rw [specNextGate_genInpIx_eq, com_next_gate_genInpIx_eq]
    simp [htag, hSgin]
  · rw [evl_next_gate_evlInpIx_eq, com_next_gate_evlInpIx_eq]
    simp [htag, hEein]
  · rw [specNextGate_evlInpIx_eq, com_next_gate_evlInpIx_eq]
    simp [htag, hSein]
  · rw [evl_next_gate_evlOutIx_eq, specNextGate_evlOutIx_eq]
    simp [htag, hEeoi]
  · rw [evl_next_gate_genOutIx_eq, specNextGate_genOutIx_eq]
    simp [htag, hEgoi]
  · exact com_next_gate_oBufr gp G g
  · rw [evl_next_gate_evlOut_noout _ _ _ ht3,
      specNextGate_evlOutBits_noout _ _ _ _ ht3]
    exact hEeo
  · rw [evl_next_gate_genOut_noout _ _ _ ht4,
      specNextGate_genOutBits_noout _ _ _ _ ht4]
    exact hEgo
  · intro i hi
    rw [com_next_gate_gateIx] at hi
    by_cases hij : i = g.idx
    · subst hij
      refine ⟨?_, ?_, ?_⟩
      · rw [com_next_gate_w, gen_next_gate_w_idx]
        simp only [htag, if_true, eq_self_iff_true]
        exact gp.rand_lt _
      · simp [specNextGate, htag]
        exact bitOf_lt_two _ _
      · rw [com_next_gate_w, gen_next_gate_w_idx, evl_next_gate_w_idx]
        simp only [htag, if_true, eq_self_iff_true]
        simp [specNextGate, htag, hpp, hEgin, hSgin]
        exact hck
    · have hi' : i < G.gateIx := by
        rw [hidx] at hij
        omega
      obtain ⟨ha, hb, hc⟩ := hlab i hi'
      refine ⟨?_, ?_, ?_⟩
      · rw [com_next_gate_w, gen_next_gate_w_frame gp G g i hij]
        exact ha
      · rw [specNextGate_val_frame _ _ _ _ _ hij]
        exact hb
      · rw [com_next_gate_w, gen_next_gate_w_frame gp G g i hij,
          evl_next_gate_w_frame _ _ _ _ hij, specNextGate_val_frame _ _ _ _ _ hij]
        exact hc

/-- The honest-execution invariant survives an `EVL_INP` gate: the generator
emits both one-time-pad encryptions of the label pair, the evaluator cancels
its OT key against the row its input bit selects, the reference semantics
latches the evaluator-input bit. -/
theorem stepInv_evlInp (gp : GenPar) (ep : EvlPar) (R : Nat)
    (G : GenSt) (E : EvlSt) (S : SpecSt) (g : Gate)
    (hpp : ep.pp = gp.pp)
    (hRk : R < 2 ^ gp.pp.k)
    (hot : ∀ i, ep.otKeys i = gp.otKeys (2 * i + bitOf ep.evlInp i))
    (hotb : ∀ j, gp.otKeys j < 2 ^ gp.pp.k)
    (htag : g.tag = GateTag.EVL_INP)
    (hidx : g.idx = G.gateIx)
    (hInv : HonestInv gp.pp.k R G E S) :
    HonestInv gp.pp.k R (com_next_gate gp G g)
      (feedGate ep E g (gen_next_gate gp G g).oBufr)
      (specNextGate gp.genInpMask ep.evlInp S g) := by
  obtain ⟨hGR, hEgi, hEgin, hSgin, hEein, hSein, hEeoi, hEgoi, hGob, hEeo, hEgo,
    hlab⟩ := hInv
  have ht1 : g.tag ≠ GateTag.GEN_INP := by simp [htag]
  have ht3 : g.tag ≠ GateTag.EVL_OUT := by simp [htag]
  have ht4 : g.tag ≠ GateTag.GEN_OUT := by simp [htag]
  simp only [feedGate]
  refine ⟨?_, ?_, ?_, ?_, ?_, ?_, ?_, ?_, ?_, ?_, ?_, ?_⟩
  · rw [com_next_gate_R]
    exact hGR
  · rw [evl_next_gate_gateIx, com_next_gate_gateIx]
    simp [hEgi]
  · rw [evl_next_gate_genInpIx_eq, com_next_gate_genInpIx_eq]
    simp [htag, hEgin]
  · rw [specNextGate_genInpIx_eq, com_next_gate_genInpIx_eq]
    simp [htag, hSgin]
  · rw [evl_next_gate_evlInpIx_eq, com_next_gate_evlInpIx_eq]
    simp [htag, hEein]
  · rw [specNextGate_evlInpIx_eq, com_next_gate_evlInpIx_eq]
    simp [htag, hSein]
  · rw [evl_next_gate_evlOutIx_eq, specNextGate_evlOutIx_eq]
    simp [htag, hEeoi]
  · rw [evl_next_gate_genOutIx_eq, specNextGate_genOutIx_eq]
    simp [htag, hEgoi]
  · exact com_next_gate_oBufr gp G g
  · rw [evl_next_gate_evlOut_noout _ _ _ ht3,
      specNextGate_evlOutBits_noout _ _ _ _ ht3]
    exact hEeo
  · rw [evl_next_gate_genOut_noout _ _ _ ht4,
      specNextGate_genOutBits_noout _ _ _ _ ht4]
    exact hEgo
  · intro i hi
    rw [com_next_gate_gateIx] at hi
    by_cases hij : i = g.idx
    · subst hij
      refine ⟨?_, ?_, ?_⟩
      · rw [com_next_gate_w, gen_next_gate_w_idx]
        simp only [htag, reduceCtorEq, if_false, if_true, eq_self_iff_true]
        exact gp.rand_lt _
      · simp [specNextGate, htag]
        exact bitOf_lt_two _ _
      · rw [com_next_gate_w, gen_next_gate_w_idx, evl_next_gate_w_idx]
        simp only [htag, reduceCtorEq, if_false, if_true, eq_self_iff_true]
        simp only [specNextGate, htag, reduceCtorEq, if_false, if_true,
          eq_self_iff_true]
        simp [hpp, hEein, hSein, hot]
        have hb : bitOf ep.evlInp G.evlInpIx = 0 ∨
            bitOf ep.evlInp G.evlInpIx = 1 := by
          have := bitOf_lt_two ep.evlInp G.evlInpIx
          omega
        rcases hb with hb | hb
        · simp [hb, gen_chunk_evlInp_0 gp G g htag hGob (hotb _), xor_left_cancel]
        · simp [hb, gen_chunk_evlInp_1 gp G g htag hGob (hotb _) (hGR ▸ hRk),
            xor_left_cancel, hGR]
    · have hi' : i < G.gateIx := by
        rw [hidx] at hij
        omega
      obtain ⟨ha, hb, hc⟩ := hlab i hi'
      refine ⟨?_, ?_, ?_⟩
      · rw [com_next_gate_w, gen_next_gate_w_frame gp G g i hij]
        exact ha
      · rw [specNextGate_val_frame _ _ _ _ _ hij]
        exact hb
      · rw [com_next_gate_w, gen_next_gate_w_frame gp G g i hij,
          evl_next_gate_w_frame _ _ _ _ hij, specNextGate_val_frame _ _ _ _ _ hij]
        exact hc

theorem xor_bits_lt (a b : Nat) (ha : a < 2) (hb : b < 2) : a ^^^ b < 2 := by
  have ha' : a = 0 ∨ a = 1 := by omega
  have hb' : b = 0 ∨ b = 1 := by omega
  rcases ha' with h | h <;> subst h <;> rcases hb' with h | h <;> subst h <;> decide

/-- The honest-execution invariant survives a free-XOR internal gate (any of
the three non-input tags): both parties XOR the input labels, no bytes are
consumed for rows, and — for output tags — the one tagging byte reveals the
plaintext bit. -/
theorem stepInv_free (gp : GenPar) (ep : EvlPar) (R : Nat)
    (G : GenSt) (E : EvlSt) (S : SpecSt) (g : Gate)
    (hpp : ep.pp = gp.pp)
    (hf : gp.pp.freeXor = true)
    (hR1 : R % 2 = 1)
    (htag1 : g.tag ≠ GateTag.GEN_INP) (htag2 : g.tag ≠ GateTag.EVL_INP)
    (hx : is_xor g = true)
    (hgok : gateOK G.gateIx g = true)
    (hInv : HonestInv gp.pp.k R G E S) :
    HonestInv gp.pp.k R (com_next_gate gp G g)
      (feedGate ep E g (gen_next_gate gp G g).oBufr)
      (specNextGate gp.genInpMask ep.evlInp S g) := by
  obtain ⟨hGR, hEgi, hEgin, hSgin, hEein, hSein, hEeoi, hEgoi, hGob, hEeo, hEgo,
    hlab⟩ := hInv
  obtain ⟨hidx, hlenOr, hins⟩ := gateOK_nonInput _ _ hgok htag1 htag2
  have h2 : g.inputs.length = 2 := by
    rcases hlenOr with h | ⟨h1, hT⟩
    · exact h
    · simp [is_xor, h1, hT] at hx
  have h6 : g.table = 6 := by
    simp [is_xor, h2] at hx
    exact hx
  have hfree : (gp.pp.freeXor && is_xor g) = true := by rw [hf, hx]; rfl
  have hfreeE : (ep.pp.freeXor && is_xor g) = true := by rw [hpp]; exact hfree
  have hi0 : g.inputs.getD 0 0 < G.gateIx :=
    getD_lt_of_all _ _ _ hins (by omega)
  have hi1 : g.inputs.getD 1 0 < G.gateIx :=
    getD_lt_of_all _ _ _ hins (by omega)
  obtain ⟨hw0, hv0, he0⟩ := hlab _ hi0
  obtain ⟨hw1, hv1, he1⟩ := hlab _ hi1
  have htblv : g.tbl (2 * S.val (g.inputs.getD 1 0) + S.val (g.inputs.getD 0 0)) =
      S.val (g.inputs.getD 0 0) ^^^ S.val (g.inputs.getD 1 0) := by
    have h0 : S.val (g.inputs.getD 0 0) = 0 ∨ S.val (g.inputs.getD 0 0) = 1 := by
      omega
    have h1 : S.val (g.inputs.getD 1 0) = 0 ∨ S.val (g.inputs.getD 1 0) = 1 := by
      omega
    rcases h0 with h | h <;> rw [h] <;> rcases h1 with h' | h' <;> rw [h'] <;>
      simp [Gate.tbl, h6, bitOf]
  simp only [feedGate]
  refine ⟨?_, ?_, ?_, ?_, ?_, ?_, ?_, ?_, ?_, ?_, ?_, ?_⟩
  · rw [com_next_gate_R]
    exact hGR
  · rw [evl_next_gate_gateIx, com_next_gate_gateIx]
    simp [hEgi]
  · rw [evl_next_gate_genInpIx_eq, com_next_gate_genInpIx_eq]
    simp [htag1, hEgin]
  · rw [specNextGate_genInpIx_eq, com_next_gate_genInpIx_eq]
    simp [htag1, hSgin]
  · rw [evl_next_gate_evlInpIx_eq, com_next_gate_evlInpIx_eq]
    simp [htag2, hEein]
  · rw [specNextGate_evlInpIx_eq, com_next_gate_evlInpIx_eq]
    simp [htag2, hSein]
  · rw [evl_next_gate_evlOutIx_eq, specNextGate_evlOutIx_eq]
    split_ifs <;> simp [hEeoi]
  · rw [evl_next_gate_genOutIx_eq, specNextGate_genOutIx_eq]
    split_ifs <;> simp [hEgoi]
  · exact com_next_gate_oBufr gp G g
  · by_cases hto : g.tag = GateTag.EVL_OUT
    · have hout : (g.tag = GateTag.EVL_OUT || g.tag = GateTag.GEN_OUT) = true := by
        simp [hto]
      rw [evl_next_gate_out_evl _ _ _ hto,
        specNextGate_evlOutBits_out _ _ _ _ hto]
      simp only [hfreeE, h2, eq_self_iff_true, if_true, reduceIte]
      rw [gen_chunk_tag_free gp G g htag1 htag2 hf hx hout hGob]
      simp only [h2, eq_self_iff_true, if_true, reduceIte]
      rw [hEeo, hEeoi, htblv]
      congr 1
      rw [he0, he1, xor_mul_R _ _ _ _ _ hv0 hv1]
      exact out_bit_eq _ _ _ (xor_bits_lt _ _ hv0 hv1) hR1
    · rw [evl_next_gate_evlOut_noout _ _ _ hto,
        specNextGate_evlOutBits_noout _ _ _ _ hto]
      exact hEeo
  · by_cases hto : g.tag = GateTag.GEN_OUT
    · have hout : (g.tag = GateTag.EVL_OUT || g.tag = GateTag.GEN_OUT) = true := by
        simp [hto]
      rw [evl_next_gate_out_gen _ _ _ hto,
        specNextGate_genOutBits_out _ _ _ _ hto]
      simp only [hfreeE, h2, eq_self_iff_true, if_true, reduceIte]
      rw [gen_chunk_tag_free gp G g htag1 htag2 hf hx hout hGob]
      simp only [h2, eq_self_iff_true, if_true, reduceIte]
      rw [hEgo, hEgoi, htblv]
      congr 1
      rw [he0, he1, xor_mul_R _ _ _ _ _ hv0 hv1]
      exact out_bit_eq _ _ _ (xor_bits_lt _ _ hv0 hv1) hR1
    · rw [evl_next_gate_genOut_noout _ _ _ hto,
        specNextGate_genOutBits_noout _ _ _ _ hto]
      exact hEgo
  · intro i hi
    rw [com_next_gate_gateIx] at hi
    by_cases hij : i = g.idx
    · subst hij
      refine ⟨?_, ?_, ?_⟩
      · rw [com_next_gate_w, gen_next_gate_w_idx]
        simp only [htag1, htag2, hfree, h2, eq_self_iff_true, if_true, if_false,
          reduceIte]
        exact Nat.xor_lt_two_pow hw0 hw1
      · rw [specNextGate_val_idx_internal _ _ _ _ htag1 htag2]
        simp only [h2, eq_self_iff_true, if_true, reduceIte]
        exact bitOf_lt_two _ _
      · rw [com_next_gate_w, gen_next_gate_w_idx, evl_next_gate_w_idx,
          specNextGate_val_idx_internal _ _ _ _ htag1 htag2]
        simp only [htag1, htag2, hfree, hfreeE, h2, eq_self_iff_true, if_true,
          if_false, reduceIte]
        rw [htblv, he0, he1]
        exact xor_mul_R _ _ _ _ _ hv0 hv1
    · have hi' : i < G.gateIx := by
        rw [hidx] at hij
        omega
      obtain ⟨ha, hb, hc⟩ := hlab i hi'
      refine ⟨?_, ?_, ?_⟩
      · rw [com_next_gate_w, gen_next_gate_w_frame gp G g i hij]
        exact ha
      · rw [specNextGate_val_frame _ _ _ _ _ hij]
        exact hb
      · rw [com_next_gate_w, gen_next_gate_w_frame gp G g i hij,
          evl_next_gate_w_frame _ _ _ _ hij, specNextGate_val_frame _ _ _ _ _ hij]
        exact hc

/-- The honest-execution invariant survives a garbled 2-arity non-XOR gate
under GRR: the evaluator decrypts (or, at garbled index `0`, directly KDFs)
the active output label, and for output tags the tagging byte reveals the
plaintext bit. -/
theorem stepInv_rows2 (gp : GenPar) (ep : EvlPar) (R : Nat)
    (G : GenSt) (E : EvlSt) (S : SpecSt) (g : Gate)
    (hpp : ep.pp = gp.pp)
    (hg : gp.pp.grr = true)
    (hR1 : R % 2 = 1) (hRk : R < 2 ^ gp.pp.k)
    (htag1 : g.tag ≠ GateTag.GEN_INP) (htag2 : g.tag ≠ GateTag.EVL_INP)
    (hx : is_xor g = false) (h2 : g.inputs.length = 2)
    (hgok : gateOK G.gateIx g = true)
    (hInv : HonestInv gp.pp.k R G E S) :
    HonestInv gp.pp.k R (com_next_gate gp G g)
      (feedGate ep E g (gen_next_gate gp G g).oBufr)
      (specNextGate gp.genInpMask ep.evlInp S g) := by
  obtain ⟨hGR, hEgi, hEgin, hSgin, hEein, hSein, hEeoi, hEgoi, hGob, hEeo, hEgo,
    hlab⟩ := hInv
  obtain ⟨hidx, hlenOr, hins⟩ := gateOK_nonInput _ _ hgok htag1 htag2
  have hRG : G.R < 2 ^ gp.pp.k := by
    rw [hGR]
    exact hRk
  have hR1' : G.R % 2 = 1 := by
    rw [hGR]
    exact hR1
  have hgE : ep.pp.grr = true := by
    rw [hpp]
    exact hg
  have hfree : (gp.pp.freeXor && is_xor g) = false := by
    rw [hx]
    simp
  have hfreeE : (ep.pp.freeXor && is_xor g) = false := by
    rw [hpp]
    exact hfree
  have hi0 : g.inputs.getD 0 0 < G.gateIx :=
    getD_lt_of_all _ _ _ hins (by omega)
  have hi1 : g.inputs.getD 1 0 < G.gateIx :=
    getD_lt_of_all _ _ _ hins (by omega)
  obtain ⟨hw0, hv0, he0⟩ := hlab _ hi0
  obtain ⟨hw1, hv1, he1⟩ := hlab _ hi1
  have he0' : E.w (g.inputs.getD 0 0) =
      G.w (g.inputs.getD 0 0) ^^^ S.val (g.inputs.getD 0 0) * G.R := by
    rw [hGR]
    exact he0
  have he1' : E.w (g.inputs.getD 1 0) =
      G.w (g.inputs.getD 1 0) ^^^ S.val (g.inputs.getD 1 0) * G.R := by
    rw [hGR]
    exact he1
  obtain ⟨hc1, hc2, hc3⟩ := gen_chunk_slices gp G g hg hx h2 htag1 htag2 hGob hRG
  have hkey : (evlRows2 ep
      { E with iBufr := (gen_next_gate gp G g).oBufr, ix := 0 } g).1 =
      (genRows2 gp G g).zk ^^^
        g.tbl (2 * S.val (g.inputs.getD 1 0) + S.val (g.inputs.getD 0 0)) * G.R :=
    evlRows2_correct gp ep G _ g _ _ hv0 hv1 hpp hg hEgi he0' he1' hR1' rfl
      hc1 hc2 hc3
  simp only [feedGate]
  refine ⟨?_, ?_, ?_, ?_, ?_, ?_, ?_, ?_, ?_, ?_, ?_, ?_⟩
  · rw [com_next_gate_R]
    exact hGR
  · rw [evl_next_gate_gateIx, com_next_gate_gateIx]
    simp [hEgi]
  · rw [evl_next_gate_genInpIx_eq, com_next_gate_genInpIx_eq]
    simp [htag1, hEgin]
  · rw [specNextGate_genInpIx_eq, com_next_gate_genInpIx_eq]
    simp [htag1, hSgin]
  · rw [evl_next_gate_evlInpIx_eq, com_next_gate_evlInpIx_eq]
    simp [htag2, hEein]
  · rw [specNextGate_evlInpIx_eq, com_next_gate_evlInpIx_eq]
    simp [htag2, hSein]
  · rw [evl_next_gate_evlOutIx_eq, specNextGate_evlOutIx_eq]
    split_ifs <;> simp [hEeoi]
  · rw [evl_next_gate_genOutIx_eq, specNextGate_genOutIx_eq]
    split_ifs <;> simp [hEgoi]
  · exact com_next_gate_oBufr gp G g
  · by_cases hto : g.tag = GateTag.EVL_OUT
    · have hout : (g.tag = GateTag.EVL_OUT || g.tag = GateTag.GEN_OUT) = true := by
        simp [hto]
      rw [evl_next_gate_out_evl _ _ _ hto,
        specNextGate_evlOutBits_out _ _ _ _ hto]
      simp only [hfreeE, Bool.false_eq_true, if_false, h2, eq_self_iff_true,
        if_true, reduceIte]
      rw [evlRows2_ix ep _ g hgE]
      simp only [Nat.zero_add, hpp]
      rw [gen_chunk_tag2 gp G g hg hx h2 htag1 htag2 hout hGob, hkey,
        hEeo, hEeoi]
      congr 1
      exact out_bit_eq _ _ _ (bitOf_lt_two _ _) hR1'
    · rw [evl_next_gate_evlOut_noout _ _ _ hto,
        specNextGate_evlOutBits_noout _ _ _ _ hto]
      exact hEeo
  · by_cases hto : g.tag = GateTag.GEN_OUT
    · have hout : (g.tag = GateTag.EVL_OUT || g.tag = GateTag.GEN_OUT) = true := by
        simp [hto]
      rw [evl_next_gate_out_gen _ _ _ hto,
        specNextGate_genOutBits_out _ _ _ _ hto]
      simp only [hfreeE, Bool.false_eq_true, if_false, h2, eq_self_iff_true,
        if_true, reduceIte]
      rw [evlRows2_ix ep _ g hgE]
      simp only [Nat.zero_add, hpp]
      rw [gen_chunk_tag2 gp G g hg hx h2 htag1 htag2 hout hGob, hkey,
        hEgo, hEgoi]
      congr 1
      exact out_bit_eq _ _ _ (bitOf_lt_two _ _) hR1'
    · rw [evl_next_gate_genOut_noout _ _ _ hto,
        specNextGate_genOutBits_noout _ _ _ _ hto]
      exact hEgo
  · intro i hi
    rw [com_next_gate_gateIx] at hi
    by_cases hij : i = g.idx
    · subst hij
      refine ⟨?_, ?_, ?_⟩
      · rw [com_next_gate_w, gen_next_gate_w_idx]
        simp only [htag1, htag2, hfree, Bool.false_eq_true, h2,
          eq_self_iff_true, if_true, if_false, reduceIte]
        exact genRows2_zk_lt gp G g hRG
      · rw [specNextGate_val_idx_internal _ _ _ _ htag1 htag2]
        simp only [h2, eq_self_iff_true, if_true, reduceIte]
        exact bitOf_lt_two _ _
      · rw [com_next_gate_w, gen_next_gate_w_idx, evl_next_gate_w_idx,
          specNextGate_val_idx_internal _ _ _ _ htag1 htag2]
        simp only [htag1, htag2, hfree, hfreeE, Bool.false_eq_true, h2,
          eq_self_iff_true, if_true, if_false, reduceIte]
        rw [hkey, hGR]
    · have hi' : i < G.gateIx := by
        rw [hidx] at hij
        omega
      obtain ⟨ha, hb, hc⟩ := hlab i hi'
      refine ⟨?_, ?_, ?_⟩
      · rw [com_next_gate_w, gen_next_gate_w_frame gp G g i hij]
        exact ha
      · rw [specNextGate_val_frame _ _ _ _ _ hij]
        exact hb
      · rw [com_next_gate_w, gen_next_gate_w_frame gp G g i hij,
          evl_next_gate_w_frame _ _ _ _ hij, specNextGate_val_frame _ _ _ _ _ hij]
        exact hc

/-- The honest-execution invariant survives a garbled 1-arity non-XOR gate
under GRR. -/
theorem stepInv_rows1 (gp : GenPar) (ep : EvlPar) (R : Nat)
    (G : GenSt) (E : EvlSt) (S : SpecSt) (g : Gate)
    (hpp : ep.pp = gp.pp)
    (hg : gp.pp.grr = true)
    (hR1 : R % 2 = 1) (hRk : R < 2 ^ gp.pp.k)
    (htag1 : g.tag ≠ GateTag.GEN_INP) (htag2 : g.tag ≠ GateTag.EVL_INP)
    (hx : is_xor g = false) (h1 : g.inputs.length = 1)
    (hgok : gateOK G.gateIx g = true)
    (hInv : HonestInv gp.pp.k R G E S) :
    HonestInv gp.pp.k R (com_next_gate gp G g)
      (feedGate ep E g (gen_next_gate gp G g).oBufr)
      (specNextGate gp.genInpMask ep.evlInp S g) := by
  obtain ⟨hGR, hEgi, hEgin, hSgin, hEein, hSein, hEeoi, hEgoi, hGob, hEeo, hEgo,
    hlab⟩ := hInv
  obtain ⟨hidx, hlenOr, hins⟩ := gateOK_nonInput _ _ hgok htag1 htag2
  have h2' : g.inputs.length ≠ 2 := by omega
  have hRG : G.R < 2 ^ gp.pp.k := by
    rw [hGR]
    exact hRk
  have hR1' : G.R % 2 = 1 := by
    rw [hGR]
    exact hR1
  have hgE : ep.pp.grr = true := by
    rw [hpp]
    exact hg
  have hfree : (gp.pp.freeXor && is_xor g) = false := by
    rw [hx]
    simp
  have hfreeE : (ep.pp.freeXor && is_xor g) = false := by
    rw [hpp]
    exact hfree
  have hi0 : g.inputs.getD 0 0 < G.gateIx :=
    getD_lt_of_all _ _ _ hins (by omega)
  obtain ⟨hw0, hv0, he0⟩ := hlab _ hi0
  have he0' : E.w (g.inputs.getD 0 0) =
      G.w (g.inputs.getD 0 0) ^^^ S.val (g.inputs.getD 0 0) * G.R := by
    rw [hGR]
    exact he0
  have hc1 := gen_chunk_slice1 gp G g hg hx h2' htag1 htag2 hGob hRG
  have hkey : (evlRows1 ep
      { E with iBufr := (gen_next_gate gp G g).oBufr, ix := 0 } g).1 =
      (genRows1 gp G g).zk ^^^ g.tbl (S.val (g.inputs.getD 0 0)) * G.R :=
    evlRows1_correct gp ep G _ g _ hv0 hpp hg hEgi he0' hR1' rfl hc1
  simp only [feedGate]
  refine ⟨?_, ?_, ?_, ?_, ?_, ?_, ?_, ?_, ?_, ?_, ?_, ?_⟩
  · rw [com_next_gate_R]
    exact hGR
  · rw [evl_next_gate_gateIx, com_next_gate_gateIx]
    simp [hEgi]
  · rw [evl_next_gate_genInpIx_eq, com_next_gate_genInpIx_eq]
    simp [htag1, hEgin]
  · rw [specNextGate_genInpIx_eq, com_next_gate_genInpIx_eq]
    simp [htag1, hSgin]
  · rw [evl_next_gate_evlInpIx_eq, com_next_gate_evlInpIx_eq]
    simp [htag2, hEein]
  · rw [specNextGate_evlInpIx_eq, com_next_gate_evlInpIx_eq]
    simp [htag2, hSein]
  · rw [evl_next_gate_evlOutIx_eq, specNextGate_evlOutIx_eq]
    split_ifs <;> simp [hEeoi]
  · rw [evl_next_gate_genOutIx_eq, specNextGate_genOutIx_eq]
    split_ifs <;> simp [hEgoi]
  · exact com_next_gate_oBufr gp G g
  · by_cases hto : g.tag = GateTag.EVL_OUT
    · have hout : (g.tag = GateTag.EVL_OUT || g.tag = GateTag.GEN_OUT) = true := by
        simp [hto]
      rw [evl_next_gate_out_evl _ _ _ hto,
        specNextGate_evlOutBits_out _ _ _ _ hto]
      simp only [hfreeE, Bool.false_eq_true, if_false, h1, Nat.reduceEqDiff]
      rw [evlRows1_ix ep _ g hgE]
      simp only [Nat.zero_add, hpp]
      rw [gen_chunk_tag1 gp G g hg hx h2' htag1 htag2 hout hGob, hkey,
        hEeo, hEeoi]
      congr 1
      exact out_bit_eq _ _ _ (bitOf_lt_two _ _) hR1'
    · rw [evl_next_gate_evlOut_noout _ _ _ hto,
        specNextGate_evlOutBits_noout _ _ _ _ hto]
      exact hEeo
  · by_cases hto : g.tag = GateTag.GEN_OUT
    · have hout : (g.tag = GateTag.EVL_OUT || g.tag = GateTag.GEN_OUT) = true := by
        simp [hto]
      rw [evl_next_gate_out_gen _ _ _ hto,
        specNextGate_genOutBits_out _ _ _ _ hto]
      simp only [hfreeE, Bool.false_eq_true, if_false, h1, Nat.reduceEqDiff]
      rw [evlRows1_ix ep _ g hgE]
      simp only [Nat.zero_add, hpp]
      rw [gen_chunk_tag1 gp G g hg hx h2' htag1 htag2 hout hGob, hkey,
        hEgo, hEgoi]
      congr 1
      exact out_bit_eq _ _ _ (bitOf_lt_two _ _) hR1'
    · rw [evl_next_gate_genOut_noout _ _ _ hto,
        specNextGate_genOutBits_noout _ _ _ _ hto]
      exact hEgo
  · intro i hi
    rw [com_next_gate_gateIx] at hi
    by_cases hij : i = g.idx
    · subst hij
      refine ⟨?_, ?_, ?_⟩
      · rw [com_next_gate_w, gen_next_gate_w_idx]
        simp only [htag1, htag2, hfree, Bool.false_eq_true, h1,
          if_false, Nat.reduceEqDiff]
        exact genRows1_zk_lt gp G g hRG
      · rw [specNextGate_val_idx_internal _ _ _ _ htag1 htag2]
        simp only [h1, Nat.reduceEqDiff, if_false]
        exact bitOf_lt_two _ _
      · rw [com_next_gate_w, gen_next_gate_w_idx, evl_next_gate_w_idx,
          specNextGate_val_idx_internal _ _ _ _ htag1 htag2]
        simp only [htag1, htag2, hfree, hfreeE, Bool.false_eq_true, h1,
          if_false, Nat.reduceEqDiff]
        rw [hkey, hGR]
    · have hi' : i < G.gateIx := by
        rw [hidx] at hij
        omega
      obtain ⟨ha, hb, hc⟩ := hlab i hi'
      refine ⟨?_, ?_, ?_⟩
      · rw [com_next_gate_w, gen_next_gate_w_frame gp G g i hij]
        exact ha
      · rw [specNextGate_val_frame _ _ _ _ _ hij]
        exact hb
      · rw [com_next_gate_w, gen_next_gate_w_frame gp G g i hij,
          evl_next_gate_w_frame _ _ _ _ hij, specNextGate_val_frame _ _ _ _ _ hij]
        exact hc

theorem gateOK_idx (n : Nat) (g : Gate) (h : gateOK n g = true) : g.idx = n := by
  unfold gateOK at h
  rw [Bool.and_eq_true] at h
  exact eq_of_beq h.1

/-- One gate of the honest execution preserves the invariant, for every gate
kind, provided the gate is well-formed at the current position and — for a
`GEN_INP` gate — the evaluator's decommitment table holds the entry the
generator just produced. -/
theorem honestStep_inv (gp : GenPar) (ep : EvlPar) (R : Nat)
    (G : GenSt) (E : EvlSt) (S : SpecSt) (g : Gate)
    (hpp : ep.pp = gp.pp)
    (hg : gp.pp.grr = true) (hf : gp.pp.freeXor = true)
    (hR1 : R % 2 = 1) (hRk : R < 2 ^ gp.pp.k)
    (hot : ∀ i, ep.otKeys i = gp.otKeys (2 * i + bitOf ep.evlInp i))
    (hotb : ∀ j, gp.otKeys j < 2 ^ gp.pp.k)
    (hgok : gateOK G.gateIx g = true)
    (hdec : g.tag = GateTag.GEN_INP →
      E.decom G.genInpIx = (gen_next_gate gp G g).decom (2 * G.genInpIx))
    (hInv : HonestInv gp.pp.k R G E S) :
    HonestInv gp.pp.k R (com_next_gate gp G g)
      (feedGate ep E g (gen_next_gate gp G g).oBufr)
      (specNextGate gp.genInpMask ep.evlInp S g) := by
  by_cases ht1 : g.tag = GateTag.GEN_INP
  · exact stepInv_genInp gp ep R G E S g hpp hR1 hRk ht1 (gateOK_idx _ _ hgok)
      hInv (hdec ht1)
  · by_cases ht2 : g.tag = GateTag.EVL_INP
    · exact stepInv_evlInp gp ep R G E S g hpp hRk hot hotb ht2
        (gateOK_idx _ _ hgok) hInv
    · by_cases hx : is_xor g = true
      · exact stepInv_free gp ep R G E S g hpp hf hR1 ht1 ht2 hx hgok hInv
      · have hx' : is_xor g = false := by simpa using hx
        obtain ⟨hidx, hlenOr, hins⟩ := gateOK_nonInput _ _ hgok ht1 ht2
        rcases hlenOr with h2 | hh1
        · exact stepInv_rows2 gp ep R G E S g hpp hg hR1 hRk ht1 ht2 hx' h2
            hgok hInv
        · exact stepInv_rows1 gp ep R G E S g hpp hg hR1 hRk ht1 ht2 hx' hh1.1
            hgok hInv

/-- The honest execution preserves the invariant over a whole well-formed
circuit suffix, given that the evaluator's decommitment table is the one the
generator's run produces. -/
theorem honestRun_inv (gp : GenPar) (ep : EvlPar) (R : Nat) (gs : List Gate) :
    ∀ (G : GenSt) (E : EvlSt) (S : SpecSt),
      ep.pp = gp.pp → gp.pp.grr = true → gp.pp.freeXor = true →
      R % 2 = 1 → R < 2 ^ gp.pp.k →
      (∀ i, ep.otKeys i = gp.otKeys (2 * i + bitOf ep.evlInp i)) →
      (∀ j, gp.otKeys j < 2 ^ gp.pp.k) →
      wfFrom G.gateIx gs = true →
      (∀ m, E.decom m = (comRun gp G gs).decom (2 * m)) →
      HonestInv gp.pp.k R G E S →
      HonestInv gp.pp.k R (honestRun gp ep (G, E) gs).1
        (honestRun gp ep (G, E) gs).2 (specRun gp.genInpMask ep.evlInp S gs) := by
  induction gs with
  | nil =>
    intro G E S _ _ _ _ _ _ _ _ _ h
    exact h
  | cons g gs ih =>
    intro G E S hpp hg hf hR1 hRk hot hotb hwf hdec hInv
    simp only [wfFrom, Bool.and_eq_true] at hwf
    obtain ⟨hgok, hwf'⟩ := hwf
    have hdecg : g.tag = GateTag.GEN_INP →
        E.decom G.genInpIx = (gen_next_gate gp G g).decom (2 * G.genInpIx) := by
      intro htg
      have hb : 2 * G.genInpIx < 2 * (com_next_gate gp G g).genInpIx := by
        rw [com_next_gate_genInpIx, gen_next_gate_genInpIx_eq, if_pos htg]
        omega
      have h0 := hdec G.genInpIx
      rw [show comRun gp G (g :: gs) = comRun gp (com_next_gate gp G g) gs
          from rfl,
        comRun_decom_stable gp gs (com_next_gate gp G g) _ hb,
        com_next_gate_decom] at h0
      exact h0
    have hwf2 : wfFrom (com_next_gate gp G g).gateIx gs = true := by
      rw [com_next_gate_gateIx]
      exact hwf'
    have hdec2 : ∀ m, (feedGate ep E g (gen_next_gate gp G g).oBufr).decom m =
        (comRun gp (com_next_gate gp G g) gs).decom (2 * m) := by
      intro m
      rw [feedGate, evl_next_gate_decom]
      exact hdec m
    have hstep := honestStep_inv gp ep R G E S g hpp hg hf hR1 hRk hot hotb
      hgok hdecg hInv
    show HonestInv gp.pp.k R
      (honestRun gp ep (honestStep gp ep (G, E) g) gs).1
      (honestRun gp ep (honestStep gp ep (G, E) g) gs).2
      (specRun gp.genInpMask ep.evlInp
        (specNextGate gp.genInpMask ep.evlInp S g) gs)
    exact ih (com_next_gate gp G g) (feedGate ep E g (gen_next_gate gp G g).oBufr)
      (specNextGate gp.genInpMask ep.evlInp S g) hpp hg hf hR1 hRk hot hotb
      hwf2 hdec2 hstep

/-- C1, amended: honest-execution correctness.  For every *well-formed*
circuit (each gate's output wire is its position, internal gates read earlier
wires with arity 1 or 2, and no 1-arity gate carries table `0x1`) and every
input pair, running `gen_init` / `gen_next_gate` (with `com_next_gate`
flushing) over every gate in order, feeding each emitted per-gate byte chunk
to an evaluator initialized by `evl_init` with the matching OT keys, the
generator's decommitment table, and its own input, makes the evaluator's
`evl_out` equal the circuit's evaluator-share output bits and its `gen_out`
the generator-share output bits.  The unamended claim (every circuit) fails:
a 1-arity gate with table `0x1` is XOR-shaped for `is_xor`, and the FREE_XOR
branch then copies the input label, evaluating NOT as identity
(`C1_counterexample`). -/
theorem C1_honest_correctness (gp : GenPar) (ep : EvlPar) (gates : List Gate)
    (dt : Nat → Nat)
    (hpp : ep.pp = gp.pp) (hg : gp.pp.grr = true) (hf : gp.pp.freeXor = true)
    (hk : 0 < gp.pp.k)
    (hot : ∀ i, ep.otKeys i = gp.otKeys (2 * i + bitOf ep.evlInp i))
    (hotb : ∀ j, gp.otKeys j < 2 ^ gp.pp.k)
    (hwf : wfFrom 0 gates = true)
    (hdt : ∀ m, dt m = (comRun gp (gen_init gp) gates).decom (2 * m)) :
    (honestRun gp ep (gen_init gp, evl_init ep dt) gates).2.evlOut =
      (specRun gp.genInpMask ep.evlInp specInit gates).evlOutBits ∧
    (honestRun gp ep (gen_init gp, evl_init ep dt) gates).2.genOut =
      (specRun gp.genInpMask ep.evlInp specInit gates).genOutBits := by
  have hR1 : (gen_init gp).R % 2 = 1 := setIthBit_zero_one_mod_two _
  have hRk : (gen_init gp).R < 2 ^ gp.pp.k :=
    setIthBit_zero_one_lt (gp.rand_lt 0) hk
  have hInv0 : HonestInv gp.pp.k (gen_init gp).R (gen_init gp)
      (evl_init ep dt) specInit := by
    refine ⟨rfl, rfl, rfl, rfl, rfl, rfl, rfl, rfl, rfl, rfl, rfl, ?_⟩
    intro i hi
    exact absurd hi (Nat.not_lt_zero i)
  have h := honestRun_inv gp ep (gen_init gp).R gates (gen_init gp)
    (evl_init ep dt) specInit hpp hg hf hR1 hRk hot hotb hwf hdt hInv0
  exact ⟨h.2.2.2.2.2.2.2.2.2.1, h.2.2.2.2.2.2.2.2.2.2.1⟩

/-- The unamended C1 fails on a circuit whose second gate is a 1-arity NOT
(table `0x1`) tagged `EVL_OUT`: the spec's `is_xor` makes it free and the
FREE_XOR branch copies the input label, so the honest evaluator outputs `0`
where the circuit semantics outputs `1`. -/
theorem C1_counterexample :
    (honestRun gpC epC (gen_init gpC, evlC) gatesC).2.evlOut ≠
      (specRun gpC.genInpMask epC.evlInp specInit gatesC).evlOutBits := by
  decide

/-- Witness: the amended C1 applied to a concrete three-gate circuit
(an AND of one generator input and one evaluator input, output to the
evaluator) with concrete parameters. -/
theorem C1_honest_correctness_witness :
    (honestRun gpW epW (gen_init gpW, evlW) gatesW).2.evlOut =
      (specRun gpW.genInpMask epW.evlInp specInit gatesW).evlOutBits ∧
    (honestRun gpW epW (gen_init gpW, evlW) gatesW).2.genOut =
      (specRun gpW.genInpMask epW.evlInp specInit gatesW).genOutBits :=
  C1_honest_correctness gpW epW gatesW
    (fun m => (comRun gpW (gen_init gpW) gatesW).decom (2 * m))
    rfl rfl rfl (by decide) (fun i => rfl)
    (fun j => Nat.mod_lt _ (by decide)) (by decide) (fun m => rfl)
